import Mathlib

/-!
Shallow embedding of the event-signup service (signup.service layer:
createSignup, caregiverSignup, cancelSignup, bulkSignup, approveSignup,
declineSignup, checkInSignup, promoteWaitlist) over an explicit store
state.  Times are modelled as integers, identifiers as naturals, the
Prisma store as lists of records.  Each operation returns `Except` of a
typed error mirroring the thrown error messages; on an error no state is
returned, matching the fact that the code throws before any write.
-/

namespace Signup

/-- The `SignupStatus` enum of the Prisma schema. -/
inductive SignupStatus where
  | PENDING
  | APPROVED
  | WAITLISTED
  | DECLINED
  | CANCELLED
  | CHECKED_IN
deriving DecidableEq, Repr

/-- The `Role` enum of the Prisma schema. -/
inductive Role where
  | STUDENT
  | CAREGIVER
  | STAFF
deriving DecidableEq, Repr

/-- The `Event` record fields read by the signup engine.
`capacity = none` models a null capacity (unbounded). -/
structure Event where
  id : Nat
  endTime : Int
  capacity : Option Nat
  requiresApproval : Bool
  allowWaitlist : Bool
  createdById : Nat
deriving DecidableEq, Repr

/-- The `EventSignup` record. -/
structure EventSignup where
  id : Nat
  userId : Nat
  eventId : Nat
  signedUpById : Option Nat
  status : SignupStatus
  createdAt : Int
  approvedAt : Option Int
  cancelledAt : Option Int
  checkedInAt : Option Int
  statusNote : Option String
  approvedById : Option Nat
deriving DecidableEq, Repr

/-- A user row: identifier and role. -/
structure UserRec where
  id : Nat
  role : Role
deriving DecidableEq, Repr

/-- The store state: events, signups, users, and the caregiver-student
link table; `nextId` supplies fresh signup identifiers. -/
structure DB where
  events : List Event
  signups : List EventSignup
  users : List UserRec
  links : List (Nat × Nat)
  nextId : Nat
deriving DecidableEq, Repr

/-- Typed counterpart of the error messages thrown by the service
("Event not found" / "Signup not found" / "User not found" are all
`NotFound`; "Cannot sign up for a past event" is `EventEnded`;
"User is already signed up for this event" is `AlreadyRegistered`;
"Event is at capacity" is `EventFull`; the illegal-transition messages
are `InvalidState`; the cancel permission message is
`PermissionDenied`). -/
inductive SignupError where
  | NotFound
  | EventEnded
  | AlreadyRegistered
  | EventFull
  | InvalidState
  | PermissionDenied
deriving DecidableEq, Repr

/-- `prisma.event.findUnique({ where: { id } })`. -/
def findEvent (db : DB) (eventId : Nat) : Option Event :=
  db.events.find? (fun e => decide (e.id = eventId))

/-- `prisma.eventSignup.findUnique({ where: { id } })`. -/
def findSignupById (db : DB) (signupId : Nat) : Option EventSignup :=
  db.signups.find? (fun s => decide (s.id = signupId))

/-- `prisma.eventSignup.findUnique({ where: { userId_eventId } })`
(the `getExistingSignup` helper). -/
def findSignupByPair (db : DB) (userId eventId : Nat) : Option EventSignup :=
  db.signups.find? (fun s => decide (s.userId = userId ∧ s.eventId = eventId))

/-- `prisma.user.findUnique({ where: { id } })`. -/
def findUser (db : DB) (userId : Nat) : Option UserRec :=
  db.users.find? (fun u => decide (u.id = userId))

/-- `prisma.caregiverStudent.findUnique({ where: { caregiverId_studentId } })`
viewed as a boolean. -/
def isLinked (db : DB) (caregiverId studentId : Nat) : Bool :=
  decide ((caregiverId, studentId) ∈ db.links)

/-- Statuses that occupy a capacity slot: the `{ in: [APPROVED, CHECKED_IN] }`
filter of the count queries. -/
def isConsuming : SignupStatus → Bool
  | .APPROVED => true
  | .CHECKED_IN => true
  | _ => false

/-- Statuses treated as terminal by the service: `CANCELLED` and `DECLINED`. -/
def isTerminated : SignupStatus → Bool
  | .CANCELLED => true
  | .DECLINED => true
  | _ => false

/-- Boolean filter of the count query for one event. -/
def consumesFor (eventId : Nat) (s : EventSignup) : Bool :=
  decide (s.eventId = eventId) && isConsuming s.status

/-- `prisma.eventSignup.count({ where: { eventId, status: { in: [APPROVED,
CHECKED_IN] } } })` — the single capacity-ledger computation shared by
create, approve and promote. -/
def countConsuming (db : DB) (eventId : Nat) : Nat :=
  db.signups.countP (consumesFor eventId)

/-- `prisma.eventSignup.update({ where: { id }, data })`: rewrite the one
record with the given id through `f`. -/
def updateSignup (db : DB) (signupId : Nat) (f : EventSignup → EventSignup) : DB :=
  { db with signups := db.signups.map (fun s => if s.id = signupId then f s else s) }

/-- Input of `createSignup`. -/
structure CreateSignupInput where
  userId : Nat
  eventId : Nat
  signedUpById : Option Nat
deriving DecidableEq, Repr

/-- The target-status decision of `createSignup`: `let status = APPROVED`
overridden to `PENDING` under `requiresApproval`, and to `WAITLISTED` or
the `EventFull` error when a finite capacity is met or exceeded. -/
def decideTarget (event : Event) (approvedCount : Nat) :
    Except SignupError SignupStatus :=
  if event.requiresApproval then
    .ok .PENDING
  else
    match event.capacity with
    | some cap =>
      if approvedCount ≥ cap then
        if event.allowWaitlist then .ok .WAITLISTED else .error .EventFull
      else
        .ok .APPROVED
    | none => .ok .APPROVED

/-- The read phase of `createSignup`: the event lookup, the end-time and
duplicate checks, the consuming count, and the target-status decision.
Returns the decided status together with the captured existing record.
Everything up to and including the `prisma.eventSignup.count` call reads
the store; the write happens afterwards, in `createApply`. -/
def createDecide (now : Int) (inp : CreateSignupInput) (db : DB) :
    Except SignupError (SignupStatus × Option EventSignup) :=
  match findEvent db inp.eventId with
  | none => .error .NotFound
  | some event =>
    if event.endTime < now then
      .error .EventEnded
    else
      let existing := findSignupByPair db inp.userId inp.eventId
      if (existing.map (fun ex => !isTerminated ex.status)).getD false then
        .error .AlreadyRegistered
      else
        match decideTarget event (countConsuming db inp.eventId) with
        | .error e => .error e
        | .ok status => .ok (status, existing)

/-- The write phase of `createSignup`: `prisma.eventSignup.update` when an
existing (cancelled/declined) record was captured, `prisma.eventSignup.create`
otherwise.  The update sets `signedUpById`, the status, `approvedAt` (now
when approved, null otherwise) and clears `cancelledAt` and `statusNote`;
it touches nothing else. -/
def createApply (now : Int) (inp : CreateSignupInput)
    (dec : SignupStatus × Option EventSignup) (db : DB) : EventSignup × DB :=
  match dec with
  | (status, some ex) =>
    let f : EventSignup → EventSignup := fun s =>
      { s with
        signedUpById := inp.signedUpById
        status := status
        approvedAt := if status = .APPROVED then some now else none
        cancelledAt := none
        statusNote := none }
    (f ex, updateSignup db ex.id f)
  | (status, none) =>
    let s : EventSignup :=
      { id := db.nextId
        userId := inp.userId
        eventId := inp.eventId
        signedUpById := inp.signedUpById
        status := status
        createdAt := now
        approvedAt := if status = .APPROVED then some now else none
        cancelledAt := none
        checkedInAt := none
        statusNote := none
        approvedById := none }
    (s, { db with signups := db.signups ++ [s], nextId := db.nextId + 1 })

/-- `createSignup`: the read phase followed by the write phase.  The two
phases are separate store round-trips in the code (no transaction spans
them). -/
def createSignup (now : Int) (inp : CreateSignupInput) (db : DB) :
    Except SignupError (EventSignup × DB) :=
  match createDecide now inp db with
  | .error e => .error e
  | .ok dec => .ok (createApply now inp dec db)

/-- Waitlisted-record filter of `promoteWaitlist`'s `findMany`. -/
def waitlistedFor (db : DB) (eventId : Nat) : List EventSignup :=
  db.signups.filter (fun s => decide (s.eventId = eventId ∧ s.status = .WAITLISTED))

/-- Insert a record into a list sorted by ascending `createdAt`. -/
def insertByCreated (s : EventSignup) : List EventSignup → List EventSignup
  | [] => [s]
  | t :: ts =>
    if s.createdAt < t.createdAt then s :: t :: ts else t :: insertByCreated s ts

/-- `orderBy: { createdAt: "asc" }` modelled as an insertion sort. -/
def sortByCreated : List EventSignup → List EventSignup
  | [] => []
  | s :: ss => insertByCreated s (sortByCreated ss)

/-- The batched `prisma.$transaction` of updates: every record whose id is
among `ids` becomes `APPROVED` with the promotion stamp and note. -/
def promoteSelected (ids : List Nat) (now : Int) (l : List EventSignup) :
    List EventSignup :=
  l.map (fun s =>
    if s.id ∈ ids then
      { s with
        status := .APPROVED
        approvedAt := some now
        statusNote := some "Auto-promoted from waitlist." }
    else s)

/-- `promoteWaitlist`.  The guard mirrors
`!event || event.requiresApproval || !event.allowWaitlist || !event.capacity`
(a capacity of 0 is falsy in the code, hence the `some 0` no-op case),
then `slots = capacity - approvedCount`, no-op when `slots <= 0`,
selection of the oldest-created waitlisted records up to `slots`, and the
atomic batch promotion. -/
def promoteWaitlist (now : Int) (eventId : Nat) (db : DB) : DB :=
  match findEvent db eventId with
  | none => db
  | some event =>
    if event.requiresApproval then db
    else if !event.allowWaitlist then db
    else
      match event.capacity with
      | none => db
      | some cap =>
        if cap = 0 then db
        else
          let approvedCount := countConsuming db eventId
          if cap ≤ approvedCount then db
          else
            let slots := cap - approvedCount
            let waitlisted := (sortByCreated (waitlistedFor db eventId)).take slots
            if waitlisted.isEmpty then db
            else
              { db with
                signups := promoteSelected (waitlisted.map EventSignup.id) now db.signups }

/-- `approveSignup`. -/
def approveSignup (now : Int) (signupId approverId : Nat) (db : DB) :
    Except SignupError (EventSignup × DB) :=
  match findSignupById db signupId with
  | none => .error .NotFound
  | some signup =>
    match findEvent db signup.eventId with
    | none => .error .NotFound
    | some event =>
      if signup.status = .CANCELLED ∨ signup.status = .DECLINED then
        .error .InvalidState
      else
        let approvedCount := countConsuming db signup.eventId
        match event.capacity with
        | some cap =>
          if approvedCount ≥ cap then
            if event.allowWaitlist then
              let f : EventSignup → EventSignup := fun s =>
                { s with
                  status := .WAITLISTED
                  statusNote := some "Auto-moved to waitlist (capacity reached)." }
              .ok (f signup, updateSignup db signupId f)
            else
              .error .EventFull
          else
            let f : EventSignup → EventSignup := fun s =>
              { s with
                status := .APPROVED
                approvedById := some approverId
                approvedAt := some now
                statusNote := none }
            .ok (f signup, updateSignup db signupId f)
        | none =>
          let f : EventSignup → EventSignup := fun s =>
            { s with
              status := .APPROVED
              approvedById := some approverId
              approvedAt := some now
              statusNote := none }
          .ok (f signup, updateSignup db signupId f)

/-- `declineSignup`: set `DECLINED`, store the optional note, stamp the
cancellation time, then run the waitlist promoter. -/
def declineSignup (now : Int) (signupId : Nat) (note : Option String) (db : DB) :
    Except SignupError (EventSignup × DB) :=
  match findSignupById db signupId with
  | none => .error .NotFound
  | some signup =>
    let f : EventSignup → EventSignup := fun s =>
      { s with
        status := .DECLINED
        statusNote := note
        cancelledAt := some now }
    let db1 := updateSignup db signupId f
    .ok (f signup, promoteWaitlist now signup.eventId db1)

/-- `cancelSignup`: permission check, set `CANCELLED`, stamp the
cancellation time, then run the waitlist promoter. -/
def cancelSignup (now : Int) (signupId userId : Nat) (db : DB) :
    Except SignupError DB :=
  match findSignupById db signupId with
  | none => .error .NotFound
  | some signup =>
    match findUser db userId with
    | none => .error .NotFound
    | some user =>
      let canCancel :=
        decide (user.role = .STAFF) ||
        decide (signup.userId = userId) ||
        decide (signup.signedUpById = some userId) ||
        (decide (user.role = .CAREGIVER) && isLinked db userId signup.userId)
      if !canCancel then
        .error .PermissionDenied
      else
        let f : EventSignup → EventSignup := fun s =>
          { s with status := .CANCELLED, cancelledAt := some now }
        let db1 := updateSignup db signupId f
        .ok (promoteWaitlist now signup.eventId db1)

/-- `checkInSignup`: only from `APPROVED`; already `CHECKED_IN` returns the
stored record unchanged; anything else is an illegal transition. -/
def checkInSignup (now : Int) (signupId : Nat) (db : DB) :
    Except SignupError (EventSignup × DB) :=
  match findSignupById db signupId with
  | none => .error .NotFound
  | some signup =>
    if signup.status ≠ .APPROVED ∧ signup.status ≠ .CHECKED_IN then
      .error .InvalidState
    else if signup.status = .CHECKED_IN then
      .ok (signup, db)
    else
      let f : EventSignup → EventSignup := fun s =>
        { s with status := .CHECKED_IN, checkedInAt := some now }
      .ok (f signup, updateSignup db signupId f)

/-- One request against the engine, for sequential executions. -/
inductive Action where
  | create (now : Int) (inp : CreateSignupInput)
  | approve (now : Int) (signupId approverId : Nat)
  | decline (now : Int) (signupId : Nat) (note : Option String)
  | cancel (now : Int) (signupId userId : Nat)
  | checkIn (now : Int) (signupId : Nat)
  | promote (now : Int) (eventId : Nat)

/-- Run one action; a thrown error leaves the store unchanged. -/
def runAction (a : Action) (db : DB) : DB :=
  match a with
  | .create now inp =>
    match createSignup now inp db with
    | .ok (_, db1) => db1
    | .error _ => db
  | .approve now sid aid =>
    match approveSignup now sid aid db with
    | .ok (_, db1) => db1
    | .error _ => db
  | .decline now sid note =>
    match declineSignup now sid note db with
    | .ok (_, db1) => db1
    | .error _ => db
  | .cancel now sid uid =>
    match cancelSignup now sid uid db with
    | .ok db1 => db1
    | .error _ => db
  | .checkIn now sid =>
    match checkInSignup now sid db with
    | .ok (_, db1) => db1
    | .error _ => db
  | .promote now eid => promoteWaitlist now eid db

/-- Run a sequential execution of actions. -/
def runAll (acts : List Action) (db : DB) : DB :=
  acts.foldl (fun d a => runAction a d) db

/-- A store state before any signup activity: arbitrary events, users and
links, no signup rows. -/
def initDB (events : List Event) (users : List UserRec)
    (links : List (Nat × Nat)) : DB :=
  { events := events, signups := [], users := users, links := links, nextId := 0 }

/-- The capacity invariant: no event with a finite capacity has more
consuming signups than its capacity. -/
def CapOk (db : DB) : Prop :=
  ∀ e ∈ db.events, ∀ cap, e.capacity = some cap → countConsuming db e.id ≤ cap

/-- Store well-formedness: distinct event ids, distinct signup ids, and
signup ids below the fresh-id counter. -/
def WF (db : DB) : Prop :=
  (db.events.map Event.id).Nodup ∧
  (db.signups.map EventSignup.id).Nodup ∧
  ∀ s ∈ db.signups, s.id < db.nextId

end Signup

namespace Signup

/-- When the read phase decides, `createSignup` commits the write phase. -/
theorem createSignup_ok_of_decide {now : Int} {inp : CreateSignupInput} {db : DB}
    {dec : SignupStatus × Option EventSignup}
    (h : createDecide now inp db = .ok dec) :
    createSignup now inp db = .ok (createApply now inp dec db) := by
  simp [createSignup, h]

/-- The record written by the write phase carries the decided status. -/
theorem createApply_status (now : Int) (inp : CreateSignupInput)
    (st : SignupStatus) (exo : Option EventSignup) (db : DB) :
    ((createApply now inp (st, exo) db).1).status = st := by
  cases exo <;> simp [createApply]

/-- The record written by the write phase is stamped `approvedAt = now`
exactly when the decided status is `APPROVED`. -/
theorem createApply_approvedAt (now : Int) (inp : CreateSignupInput)
    (st : SignupStatus) (exo : Option EventSignup) (db : DB) :
    ((createApply now inp (st, exo) db).1).approvedAt =
      (if st = .APPROVED then some now else none) := by
  cases exo <;> simp [createApply]

/-- C1: for a create where the event exists, the event has not ended, and
no active signup exists for the pair: approval-gated events yield
`PENDING`; otherwise unlimited capacity or a consuming count below
capacity yields `APPROVED` stamped now; otherwise a full event yields
`WAITLISTED` when waitlisting is allowed and fails with `EventFull`
(writing nothing) when it is not. -/
theorem createSignup_status_decision
    (now : Int) (inp : CreateSignupInput) (db : DB) (event : Event)
    (hev : findEvent db inp.eventId = some event)
    (hend : ¬ event.endTime < now)
    (hact : ∀ ex, findSignupByPair db inp.userId inp.eventId = some ex →
      isTerminated ex.status = true) :
    (event.requiresApproval = true →
      ∃ r db1, createSignup now inp db = .ok (r, db1) ∧ r.status = .PENDING) ∧
    (event.requiresApproval = false →
      (event.capacity = none ∨
        ∃ cap, event.capacity = some cap ∧ countConsuming db inp.eventId < cap) →
      ∃ r db1, createSignup now inp db = .ok (r, db1) ∧
        r.status = .APPROVED ∧ r.approvedAt = some now) ∧
    (∀ cap, event.requiresApproval = false → event.capacity = some cap →
      cap ≤ countConsuming db inp.eventId → event.allowWaitlist = true →
      ∃ r db1, createSignup now inp db = .ok (r, db1) ∧ r.status = .WAITLISTED) ∧
    (∀ cap, event.requiresApproval = false → event.capacity = some cap →
      cap ≤ countConsuming db inp.eventId → event.allowWaitlist = false →
      createSignup now inp db = .error .EventFull ∧
      runAction (.create now inp) db = db) := by
  have hguard :
      ((findSignupByPair db inp.userId inp.eventId).map
        (fun ex => !isTerminated ex.status)).getD false = false := by
    cases hex : findSignupByPair db inp.userId inp.eventId with
    | none => rfl
    | some ex => simp [hact ex hex]
  refine ⟨?_, ?_, ?_, ?_⟩
  · intro hra
    have hdec : createDecide now inp db =
        .ok (.PENDING, findSignupByPair db inp.userId inp.eventId) := by
      simp [createDecide, decideTarget, hev, hend, hguard, hra]
    exact ⟨_, _, createSignup_ok_of_decide hdec, createApply_status ..⟩
  · intro hra hcap
    have hdec : createDecide now inp db =
        .ok (.APPROVED, findSignupByPair db inp.userId inp.eventId) := by
      rcases hcap with h | ⟨cap, hc, hlt⟩
      · simp [createDecide, decideTarget, hev, hend, hguard, hra, h]
      · simp [createDecide, decideTarget, hev, hend, hguard, hra, hc, Nat.not_le.mpr hlt]
    refine ⟨_, _, createSignup_ok_of_decide hdec, createApply_status .., ?_⟩
    exact (createApply_approvedAt now inp .APPROVED
      (findSignupByPair db inp.userId inp.eventId) db).trans (by simp)
  · intro cap hra hc hge hwl
    have hdec : createDecide now inp db =
        .ok (.WAITLISTED, findSignupByPair db inp.userId inp.eventId) := by
      simp [createDecide, decideTarget, hev, hend, hguard, hra, hc, hwl, hge]
    exact ⟨_, _, createSignup_ok_of_decide hdec, createApply_status ..⟩
  · intro cap hra hc hge hwl
    have hdec : createDecide now inp db = .error .EventFull := by
      simp [createDecide, decideTarget, hev, hend, hguard, hra, hc, hwl, hge]
    have hcr : createSignup now inp db = .error .EventFull := by
      simp [createSignup, hdec]
    exact ⟨hcr, by simp [runAction, hcr]⟩

/-- Sample event for the C1 witness. -/
def C1ev : Event :=
  { id := 5, endTime := 100, capacity := some 1, requiresApproval := false,
    allowWaitlist := true, createdById := 0 }

/-- Sample store for the C1 witness: one open event, no signups. -/
def C1db : DB :=
  { events := [C1ev], signups := [], users := [], links := [], nextId := 0 }

/-- Witness for C1: on an empty capacity-1 event a create is approved and
stamped. -/
theorem createSignup_status_decision_witness :
    findEvent C1db 5 = some C1ev ∧
    ∃ r db1, createSignup 50 ⟨1, 5, none⟩ C1db = .ok (r, db1) ∧
      r.status = .APPROVED ∧ r.approvedAt = some 50 := by
  refine ⟨rfl, ?_⟩
  exact (createSignup_status_decision 50 ⟨1, 5, none⟩ C1db C1ev rfl (by decide)
    (by intro ex h; simp [findSignupByPair, C1db] at h)).2.1 rfl
    (Or.inr ⟨1, rfl, by decide⟩)

/-- C6: create fails with `NotFound` when the event is missing, with
`EventEnded` when the current time is past the event's end, and with
`AlreadyRegistered` when a non-cancelled, non-declined signup exists for
the pair — the checks apply in that order, and each failure leaves the
store untouched. -/
theorem createSignup_error_order
    (now : Int) (inp : CreateSignupInput) (db : DB) :
    (findEvent db inp.eventId = none →
      createSignup now inp db = .error .NotFound ∧
      runAction (.create now inp) db = db) ∧
    (∀ event, findEvent db inp.eventId = some event → event.endTime < now →
      createSignup now inp db = .error .EventEnded ∧
      runAction (.create now inp) db = db) ∧
    (∀ event ex, findEvent db inp.eventId = some event → ¬ event.endTime < now →
      findSignupByPair db inp.userId inp.eventId = some ex →
      isTerminated ex.status = false →
      createSignup now inp db = .error .AlreadyRegistered ∧
      runAction (.create now inp) db = db) := by
  refine ⟨?_, ?_, ?_⟩
  · intro h
    have hc : createSignup now inp db = .error .NotFound := by
      simp [createSignup, createDecide, h]
    exact ⟨hc, by simp [runAction, hc]⟩
  · intro event hev hlt
    have hc : createSignup now inp db = .error .EventEnded := by
      simp [createSignup, createDecide, hev, hlt]
    exact ⟨hc, by simp [runAction, hc]⟩
  · intro event ex hev hend hex hterm
    have hc : createSignup now inp db = .error .AlreadyRegistered := by
      simp [createSignup, createDecide, hev, hend, hex, hterm]
    exact ⟨hc, by simp [runAction, hc]⟩

/-- Sample store for the C6 witness: an ended event. -/
def C6db : DB :=
  { events := [{ id := 7, endTime := 10, capacity := none,
                 requiresApproval := false, allowWaitlist := false,
                 createdById := 0 }],
    signups := [], users := [], links := [], nextId := 0 }

/-- Witness for C6: creating against the ended event fails with
`EventEnded` and changes nothing. -/
theorem createSignup_error_order_witness :
    (∃ event, findEvent C6db 7 = some event ∧ event.endTime < 99) ∧
    createSignup 99 ⟨1, 7, none⟩ C6db = .error .EventEnded ∧
    runAction (.create 99 ⟨1, 7, none⟩) C6db = C6db := by
  refine ⟨⟨_, rfl, by decide⟩, ?_⟩
  exact (createSignup_error_order 99 ⟨1, 7, none⟩ C6db).2.1 _ rfl (by decide)

end Signup

namespace Signup

/-- Under distinct ids, updating the record found at an id and looking it
up again returns the transformed record, provided the transform keeps
the id. -/
theorem find?_map_update {l : List EventSignup}
    (hn : (l.map EventSignup.id).Nodup) {i : Nat} {s : EventSignup}
    (hs : l.find? (fun t => decide (t.id = i)) = some s)
    (f : EventSignup → EventSignup) (hf : (f s).id = s.id) :
    (l.map (fun t => if t.id = i then f t else t)).find?
      (fun t => decide (t.id = i)) = some (f s) := by
  induction l with
  | nil => cases hs
  | cons a t ih =>
    by_cases ha : a.id = i
    · have hsa : s = a := by
        have := List.find?_cons_of_pos (p := fun t => decide (t.id = i)) t
          (by simpa using ha)
        rw [this] at hs
        exact (Option.some.inj hs).symm
      subst hsa
      simp only [List.map_cons, if_pos ha]
      exact List.find?_cons_of_pos _ (by simp [hf, ha])
    · have hs' : t.find? (fun t => decide (t.id = i)) = some s := by
        have := List.find?_cons_of_neg (p := fun t => decide (t.id = i)) t
          (by simpa using ha)
        rw [this] at hs
        exact hs
      have hn' : (t.map EventSignup.id).Nodup := by
        simpa using (List.nodup_cons.mp (by simpa using hn)).2
      simp only [List.map_cons, if_neg ha]
      rw [List.find?_cons_of_neg _ (by simpa using ha)]
      exact ih hn' hs'

/-- `updateSignup` then `findSignupById` at the updated id. -/
theorem findSignupById_updateSignup {db : DB} {sid : Nat} {s : EventSignup}
    (hn : (db.signups.map EventSignup.id).Nodup)
    (hs : findSignupById db sid = some s)
    (f : EventSignup → EventSignup) (hf : (f s).id = s.id) :
    findSignupById (updateSignup db sid f) sid = some (f s) :=
  find?_map_update hn hs f hf

/-- C2: approve fails with `InvalidState` from `CANCELLED` or `DECLINED`;
otherwise the consuming count is recomputed now, and with a finite
capacity that the count meets or exceeds the signup is demoted to
`WAITLISTED` with the explanatory note when the event allows waitlisting
and the operation fails with `EventFull` when it does not; below
capacity (or with no capacity limit) the signup becomes `APPROVED` with
the note cleared, the approval time stamped and the approver
recorded. -/
theorem approveSignup_spec
    (now : Int) (sid aid : Nat) (db : DB) (s : EventSignup) (ev : Event)
    (hs : findSignupById db sid = some s)
    (hev : findEvent db s.eventId = some ev) :
    ((s.status = .CANCELLED ∨ s.status = .DECLINED) →
      approveSignup now sid aid db = .error .InvalidState ∧
      runAction (.approve now sid aid) db = db) ∧
    (¬(s.status = .CANCELLED ∨ s.status = .DECLINED) →
      ∀ cap, ev.capacity = some cap → cap ≤ countConsuming db s.eventId →
      ev.allowWaitlist = true →
      approveSignup now sid aid db =
        .ok ({ s with
                status := .WAITLISTED
                statusNote := some "Auto-moved to waitlist (capacity reached)." },
          updateSignup db sid fun t =>
            { t with
              status := .WAITLISTED
              statusNote := some "Auto-moved to waitlist (capacity reached)." })) ∧
    (¬(s.status = .CANCELLED ∨ s.status = .DECLINED) →
      ∀ cap, ev.capacity = some cap → cap ≤ countConsuming db s.eventId →
      ev.allowWaitlist = false →
      approveSignup now sid aid db = .error .EventFull ∧
      runAction (.approve now sid aid) db = db) ∧
    (¬(s.status = .CANCELLED ∨ s.status = .DECLINED) →
      (ev.capacity = none ∨
        ∃ cap, ev.capacity = some cap ∧ countConsuming db s.eventId < cap) →
      approveSignup now sid aid db =
        .ok ({ s with
                status := .APPROVED
                approvedById := some aid
                approvedAt := some now
                statusNote := none },
          updateSignup db sid fun t =>
            { t with
              status := .APPROVED
              approvedById := some aid
              approvedAt := some now
              statusNote := none })) := by
  refine ⟨?_, ?_, ?_, ?_⟩
  · intro hterm
    have hc : approveSignup now sid aid db = .error .InvalidState := by
      simp [approveSignup, hs, hev, hterm]
    exact ⟨hc, by simp [runAction, hc]⟩
  · intro hterm cap hcap hge hwl
    simp [approveSignup, hs, hev, hterm, hcap, hge, hwl]
  · intro hterm cap hcap hge hwl
    have hc : approveSignup now sid aid db = .error .EventFull := by
      simp [approveSignup, hs, hev, hterm, hcap, hge, hwl]
    exact ⟨hc, by simp [runAction, hc]⟩
  · intro hterm hcap
    rcases hcap with h | ⟨cap, hcap, hlt⟩
    · simp [approveSignup, hs, hev, hterm, h]
    · simp [approveSignup, hs, hev, hterm, hcap, Nat.not_le.mpr hlt]

/-- Sample store for the C2 witness: a pending signup on a full
no-waitlist event. -/
def C2db : DB :=
  { events := [{ id := 5, endTime := 100, capacity := some 1,
                 requiresApproval := true, allowWaitlist := false,
                 createdById := 0 }],
    signups :=
      [ { id := 10, userId := 1, eventId := 5, signedUpById := none,
          status := .APPROVED, createdAt := 1, approvedAt := some 2,
          cancelledAt := none, checkedInAt := none, statusNote := none,
          approvedById := none },
        { id := 11, userId := 2, eventId := 5, signedUpById := none,
          status := .PENDING, createdAt := 3, approvedAt := none,
          cancelledAt := none, checkedInAt := none, statusNote := none,
          approvedById := none } ],
    users := [], links := [], nextId := 12 }

/-- Witness for C2: approving the pending signup on the full event fails
with `EventFull` and changes nothing. -/
theorem approveSignup_spec_witness :
    approveSignup 50 11 9 C2db = .error .EventFull ∧
    runAction (.approve 50 11 9) C2db = C2db := by
  refine (approveSignup_spec 50 11 9 C2db
    { id := 11, userId := 2, eventId := 5, signedUpById := none,
      status := .PENDING, createdAt := 3, approvedAt := none,
      cancelledAt := none, checkedInAt := none, statusNote := none,
      approvedById := none }
    { id := 5, endTime := 100, capacity := some 1,
      requiresApproval := true, allowWaitlist := false, createdById := 0 }
    (by decide) (by decide)).2.2.1 (by decide) 1 (by decide) (by decide)
    (by decide)

/-- C10 (implicit): on a finite-capacity waitlist-enabled event whose
consuming count has reached capacity, approving a signup that is itself
already `APPROVED` or `CHECKED_IN` demotes it to `WAITLISTED` with the
capacity note — the recomputed count includes the signup being approved,
so a repeated approve on a full event demotes the attendee. -/
theorem approveSignup_demotes_consuming
    (now : Int) (sid aid : Nat) (db : DB) (s : EventSignup) (ev : Event)
    (cap : Nat)
    (hs : findSignupById db sid = some s)
    (hev : findEvent db s.eventId = some ev)
    (hst : s.status = .APPROVED ∨ s.status = .CHECKED_IN)
    (hcap : ev.capacity = some cap)
    (hwl : ev.allowWaitlist = true)
    (hge : cap ≤ countConsuming db s.eventId) :
    1 ≤ countConsuming db s.eventId ∧
    approveSignup now sid aid db =
      .ok ({ s with
              status := .WAITLISTED
              statusNote := some "Auto-moved to waitlist (capacity reached)." },
        updateSignup db sid fun t =>
          { t with
            status := .WAITLISTED
            statusNote := some "Auto-moved to waitlist (capacity reached)." }) := by
  have hterm : ¬(s.status = .CANCELLED ∨ s.status = .DECLINED) := by
    rcases hst with h | h <;> simp [h]
  have hmem : s ∈ db.signups := List.mem_of_find?_eq_some hs
  constructor
  · have : 0 < db.signups.countP (consumesFor s.eventId) :=
      List.countP_pos_iff.mpr ⟨s, hmem, by
        rcases hst with h | h <;> simp [consumesFor, h, isConsuming]⟩
    exact this
  · simp [approveSignup, hs, hev, hterm, hcap, hge, hwl]

/-- Sample store for the C10 witness: a capacity-1 waitlist event whose
single approved attendee is approved again. -/
def C10db : DB :=
  { events := [{ id := 5, endTime := 100, capacity := some 1,
                 requiresApproval := false, allowWaitlist := true,
                 createdById := 0 }],
    signups :=
      [ { id := 10, userId := 1, eventId := 5, signedUpById := none,
          status := .APPROVED, createdAt := 1, approvedAt := some 2,
          cancelledAt := none, checkedInAt := none, statusNote := none,
          approvedById := none } ],
    users := [], links := [], nextId := 11 }

/-- Witness for C10: re-approving the sole approved attendee of the full
capacity-1 event demotes it to the waitlist. -/
theorem approveSignup_demotes_consuming_witness :
    1 ≤ countConsuming C10db 5 ∧
    ∃ r db1, approveSignup 50 10 9 C10db = .ok (r, db1) ∧
      r.status = .WAITLISTED ∧
      r.statusNote = some "Auto-moved to waitlist (capacity reached)." := by
  have h := approveSignup_demotes_consuming 50 10 9 C10db
    { id := 10, userId := 1, eventId := 5, signedUpById := none,
      status := .APPROVED, createdAt := 1, approvedAt := some 2,
      cancelledAt := none, checkedInAt := none, statusNote := none,
      approvedById := none }
    { id := 5, endTime := 100, capacity := some 1,
      requiresApproval := false, allowWaitlist := true, createdById := 0 }
    1 (by decide) (by decide) (Or.inl rfl) rfl rfl (by decide)
  exact ⟨h.1, _, _, h.2, rfl, rfl⟩

end Signup

namespace Signup

/-- C7: check-in succeeds only from `APPROVED`, stamping `CHECKED_IN`
with the check-in time; on an already `CHECKED_IN` signup it returns the
stored record without error, so a second check-in reproduces the first
one's observable state; from any other status it fails with
`InvalidState` and leaves the store unchanged. -/
theorem checkInSignup_spec
    (now : Int) (sid : Nat) (db : DB) (s : EventSignup)
    (hn : (db.signups.map EventSignup.id).Nodup)
    (hs : findSignupById db sid = some s) :
    (s.status = .APPROVED →
      checkInSignup now sid db =
        .ok ({ s with
                status := .CHECKED_IN
                checkedInAt := some now },
          updateSignup db sid fun t =>
            { t with
              status := .CHECKED_IN
              checkedInAt := some now }) ∧
      ∀ now2,
        checkInSignup now2 sid
            (updateSignup db sid fun t =>
              { t with
                status := .CHECKED_IN
                checkedInAt := some now }) =
          .ok ({ s with
                  status := .CHECKED_IN
                  checkedInAt := some now },
            updateSignup db sid fun t =>
              { t with
                status := .CHECKED_IN
                checkedInAt := some now })) ∧
    (s.status = .CHECKED_IN → checkInSignup now sid db = .ok (s, db)) ∧
    (s.status ≠ .APPROVED → s.status ≠ .CHECKED_IN →
      checkInSignup now sid db = .error .InvalidState ∧
      runAction (.checkIn now sid) db = db) := by
  refine ⟨?_, ?_, ?_⟩
  · intro hap
    constructor
    · simp [checkInSignup, hs, hap]
    · intro now2
      have hs2 := findSignupById_updateSignup hn hs
        (fun t => { t with status := .CHECKED_IN, checkedInAt := some now })
        rfl
      simp [checkInSignup, hs2, hap]
  · intro hci
    simp [checkInSignup, hs, hci]
  · intro h1 h2
    have hc : checkInSignup now sid db = .error .InvalidState := by
      simp [checkInSignup, hs, h1, h2]
    exact ⟨hc, by simp [runAction, hc]⟩

/-- Sample store for the C7 witness: one approved signup. -/
def C7db : DB :=
  { events := [], signups :=
      [ { id := 10, userId := 1, eventId := 5, signedUpById := none,
          status := .APPROVED, createdAt := 1, approvedAt := some 2,
          cancelledAt := none, checkedInAt := none, statusNote := none,
          approvedById := none } ],
    users := [], links := [], nextId := 11 }

/-- Witness for C7: checking in the approved signup stamps it, and a
second check-in at a later time reproduces the same state. -/
theorem checkInSignup_spec_witness :
    ∃ r db1, checkInSignup 50 10 C7db = .ok (r, db1) ∧
      r.status = .CHECKED_IN ∧ r.checkedInAt = some 50 ∧
      checkInSignup 60 10 db1 = .ok (r, db1) := by
  have h := (checkInSignup_spec 50 10 C7db
    { id := 10, userId := 1, eventId := 5, signedUpById := none,
      status := .APPROVED, createdAt := 1, approvedAt := some 2,
      cancelledAt := none, checkedInAt := none, statusNote := none,
      approvedById := none } (by decide) (by decide)).1 rfl
  exact ⟨_, _, h.1, rfl, rfl, h.2 60⟩

/-- The read phase of a create records the captured existing signup in
its result. -/
theorem createDecide_existing {now : Int} {inp : CreateSignupInput} {db : DB}
    {st : SignupStatus} {exo : Option EventSignup}
    (h : createDecide now inp db = .ok (st, exo)) :
    exo = findSignupByPair db inp.userId inp.eventId := by
  unfold createDecide at h
  cases hev : findEvent db inp.eventId with
  | none => rw [hev] at h; cases h
  | some event =>
    rw [hev] at h
    simp only at h
    by_cases hend : event.endTime < now
    · rw [if_pos hend] at h; cases h
    · rw [if_neg hend] at h
      by_cases hg : (Option.map (fun ex => !isTerminated ex.status)
          (findSignupByPair db inp.userId inp.eventId)).getD false = true
      · rw [if_pos hg] at h; cases h
      · rw [if_neg hg] at h
        cases hdt : decideTarget event (countConsuming db inp.eventId) with
        | error e => rw [hdt] at h; cases h
        | ok s2 =>
          rw [hdt] at h
          simp only [Except.ok.injEq, Prod.mk.injEq] at h
          exact h.2.symm

end Signup

namespace Signup

/-- The read phase of a create decides exactly the target computed from
the current event configuration and the current consuming count. -/
theorem createDecide_target {now : Int} {inp : CreateSignupInput} {db : DB}
    {st : SignupStatus} {exo : Option EventSignup} {event : Event}
    (h : createDecide now inp db = .ok (st, exo))
    (hev : findEvent db inp.eventId = some event) :
    decideTarget event (countConsuming db inp.eventId) = .ok st := by
  unfold createDecide at h
  rw [hev] at h
  simp only at h
  by_cases hend : event.endTime < now
  · rw [if_pos hend] at h; cases h
  · rw [if_neg hend] at h
    by_cases hg : (Option.map (fun ex => !isTerminated ex.status)
        (findSignupByPair db inp.userId inp.eventId)).getD false = true
    · rw [if_pos hg] at h; cases h
    · rw [if_neg hg] at h
      cases hdt : decideTarget event (countConsuming db inp.eventId) with
      | error e => rw [hdt] at h; cases h
      | ok s2 =>
        rw [hdt] at h
        simp only [Except.ok.injEq, Prod.mk.injEq] at h
        rw [h.1]

/-- Under distinct ids, looking a member record up by its own id finds
it. -/
theorem find?_id_of_mem {l : List EventSignup}
    (hn : (l.map EventSignup.id).Nodup) {s : EventSignup} (hs : s ∈ l) :
    l.find? (fun t => decide (t.id = s.id)) = some s := by
  induction l with
  | nil => cases hs
  | cons a t ih =>
    rcases List.mem_cons.mp hs with h | h
    · subst h
      exact List.find?_cons_of_pos _ (by simp)
    · have hna : a.id ≠ s.id := by
        intro he
        exact (List.nodup_cons.mp (by simpa using hn)).1
          (he ▸ List.mem_map_of_mem EventSignup.id h)
      rw [List.find?_cons_of_neg _ (by simpa using hna)]
      exact ih (List.nodup_cons.mp (by simpa using hn)).2 h

/-- C8: a create against an existing `CANCELLED`/`DECLINED` signup for
the same pair reuses the same record (same id and creation time, no new
row), clears the prior cancellation timestamp and note, records the new
assisting actor, and recomputes the status from the event's current
configuration and current consuming count. -/
theorem createSignup_resignup
    (now : Int) (inp : CreateSignupInput) (db : DB) (ex : EventSignup)
    (hn : (db.signups.map EventSignup.id).Nodup)
    (hex : findSignupByPair db inp.userId inp.eventId = some ex)
    (r : EventSignup) (db1 : DB)
    (hok : createSignup now inp db = .ok (r, db1)) :
    r.id = ex.id ∧
    r.createdAt = ex.createdAt ∧
    r.cancelledAt = none ∧
    r.statusNote = none ∧
    r.signedUpById = inp.signedUpById ∧
    db1.signups.length = db.signups.length ∧
    findSignupById db1 ex.id = some r ∧
    ∀ event, findEvent db inp.eventId = some event →
      decideTarget event (countConsuming db inp.eventId) = .ok r.status := by
  cases hdec : createDecide now inp db with
  | error e =>
    unfold createSignup at hok
    rw [hdec] at hok
    cases hok
  | ok dec =>
    obtain ⟨st, exo⟩ := dec
    have hexo : exo = some ex := (createDecide_existing hdec).trans hex
    subst hexo
    unfold createSignup at hok
    rw [hdec] at hok
    simp only [createApply] at hok
    have h1 := Except.ok.inj hok
    have hr : r = { ex with
        signedUpById := inp.signedUpById
        status := st
        approvedAt := if st = .APPROVED then some now else none
        cancelledAt := none
        statusNote := none } := by
      have := congrArg Prod.fst h1
      exact this.symm
    have hdb : db1 = updateSignup db ex.id (fun s =>
        { s with
          signedUpById := inp.signedUpById
          status := st
          approvedAt := if st = .APPROVED then some now else none
          cancelledAt := none
          statusNote := none }) := by
      have := congrArg Prod.snd h1
      exact this.symm
    have hfind : findSignupById db ex.id = some ex :=
      find?_id_of_mem hn (List.mem_of_find?_eq_some hex)
    refine ⟨by rw [hr], by rw [hr], by rw [hr], by rw [hr], by rw [hr],
      ?_, ?_, ?_⟩
    · rw [hdb]
      simp [updateSignup]
    · rw [hdb, hr]
      exact findSignupById_updateSignup hn hfind _ rfl
    · intro event hev
      rw [hr]
      exact createDecide_target hdec hev

/-- Sample store for the C8 witness: a cancelled signup for the pair on a
still-open capacity-2 event. -/
def C8db : DB :=
  { events := [{ id := 5, endTime := 100, capacity := some 2,
                 requiresApproval := false, allowWaitlist := true,
                 createdById := 0 }],
    signups :=
      [ { id := 10, userId := 1, eventId := 5, signedUpById := some 9,
          status := .CANCELLED, createdAt := 1, approvedAt := none,
          cancelledAt := some 4, checkedInAt := none,
          statusNote := some "cancelled by user", approvedById := none } ],
    users := [], links := [], nextId := 11 }

/-- Witness for C8: re-signing the cancelled record reuses id 10, clears
the cancellation data and approves from current capacity. -/
theorem createSignup_resignup_witness :
    ∃ r db1, createSignup 50 ⟨1, 5, none⟩ C8db = .ok (r, db1) ∧
      r.id = 10 ∧ r.createdAt = 1 ∧ r.cancelledAt = none ∧
      r.statusNote = none ∧ db1.signups.length = 1 := by
  have hok : createSignup 50 ⟨1, 5, none⟩ C8db =
      .ok ({ id := 10, userId := 1, eventId := 5, signedUpById := none,
             status := .APPROVED, createdAt := 1, approvedAt := some 50,
             cancelledAt := none, checkedInAt := none, statusNote := none,
             approvedById := none },
        { C8db with signups :=
            [ { id := 10, userId := 1, eventId := 5, signedUpById := none,
                status := .APPROVED, createdAt := 1, approvedAt := some 50,
                cancelledAt := none, checkedInAt := none, statusNote := none,
                approvedById := none } ] }) := by rfl
  have h := createSignup_resignup 50 ⟨1, 5, none⟩ C8db
    { id := 10, userId := 1, eventId := 5, signedUpById := some 9,
      status := .CANCELLED, createdAt := 1, approvedAt := none,
      cancelledAt := some 4, checkedInAt := none,
      statusNote := some "cancelled by user", approvedById := none }
    (by decide) (by decide) _ _ hok
  exact ⟨_, _, hok, h.1, h.2.1, h.2.2.1, h.2.2.2.1, h.2.2.2.2.2.1⟩

end Signup

namespace Signup

/-- Store for the C9 counterexample: event 5 is owned by caregiver 3, who
neither submitted signup 10 nor is linked to its subject. -/
def C9dbA : DB :=
  { events := [{ id := 5, endTime := 100, capacity := none,
                 requiresApproval := false, allowWaitlist := false,
                 createdById := 3 }],
    signups :=
      [ { id := 10, userId := 1, eventId := 5, signedUpById := none,
          status := .APPROVED, createdAt := 1, approvedAt := some 2,
          cancelledAt := none, checkedInAt := none, statusNote := none,
          approvedById := none } ],
    users := [⟨1, .STUDENT⟩, ⟨3, .CAREGIVER⟩], links := [], nextId := 11 }

/-- C9 counterexample: the owner of the signup's event is refused the
cancel with `PermissionDenied` — event ownership grants no cancel
permission in the code. -/
theorem cancelSignup_owner_denied :
    (findSignupById C9dbA 10).map EventSignup.eventId = some 5 ∧
    (findEvent C9dbA 5).map Event.createdById = some 3 ∧
    (findUser C9dbA 3).map UserRec.role = some .CAREGIVER ∧
    cancelSignup 0 10 3 C9dbA = .error .PermissionDenied :=
  ⟨rfl, rfl, rfl, rfl⟩

/-- C9 (amended): for an existing signup and an existing caller, the
cancel succeeds exactly when the caller is the subject, the original
assisting actor, a `STAFF` user, or a caregiver currently linked to the
subject — event ownership by itself grants nothing; every other caller
fails with `PermissionDenied` and the store is unchanged. -/
theorem cancelSignup_permission
    (now : Int) (sid uid : Nat) (db : DB) (s : EventSignup) (u : UserRec)
    (hs : findSignupById db sid = some s)
    (hu : findUser db uid = some u) :
    ((∃ db1, cancelSignup now sid uid db = .ok db1) ↔
      (u.role = .STAFF ∨ s.userId = uid ∨ s.signedUpById = some uid ∨
        (u.role = .CAREGIVER ∧ (uid, s.userId) ∈ db.links))) ∧
    (¬(u.role = .STAFF ∨ s.userId = uid ∨ s.signedUpById = some uid ∨
        (u.role = .CAREGIVER ∧ (uid, s.userId) ∈ db.links)) →
      cancelSignup now sid uid db = .error .PermissionDenied ∧
      runAction (.cancel now sid uid) db = db) := by
  have hcan : (decide (u.role = .STAFF) || decide (s.userId = uid) ||
      decide (s.signedUpById = some uid) ||
      (decide (u.role = .CAREGIVER) && isLinked db uid s.userId)) = true ↔
      (u.role = .STAFF ∨ s.userId = uid ∨ s.signedUpById = some uid ∨
        (u.role = .CAREGIVER ∧ (uid, s.userId) ∈ db.links)) := by
    simp [isLinked, or_assoc]
  by_cases hp : u.role = .STAFF ∨ s.userId = uid ∨ s.signedUpById = some uid ∨
      (u.role = .CAREGIVER ∧ (uid, s.userId) ∈ db.links)
  · have hb := hcan.mpr hp
    constructor
    · refine ⟨fun _ => hp, fun _ =>
        ⟨promoteWaitlist now s.eventId (updateSignup db sid fun t =>
          { t with status := .CANCELLED, cancelledAt := some now }), ?_⟩⟩
      simp [cancelSignup, hs, hu, hb]
    · intro h
      exact absurd hp h
  · have hb : (decide (u.role = .STAFF) || decide (s.userId = uid) ||
        decide (s.signedUpById = some uid) ||
        (decide (u.role = .CAREGIVER) && isLinked db uid s.userId)) = false := by
      cases hw : (decide (u.role = .STAFF) || decide (s.userId = uid) ||
          decide (s.signedUpById = some uid) ||
          (decide (u.role = .CAREGIVER) && isLinked db uid s.userId)) with
      | false => rfl
      | true => exact absurd (hcan.mp hw) hp
    have hc : cancelSignup now sid uid db = .error .PermissionDenied := by
      simp [cancelSignup, hs, hu, hb]
    constructor
    · constructor
      · intro ⟨db1, h1⟩
        rw [hc] at h1
        cases h1
      · intro h
        exact absurd h hp
    · intro _
      exact ⟨hc, by simp [runAction, hc]⟩

/-- Store for the C9 witness: subject 1 cancels their own signup. -/
def C9dbB : DB :=
  { events := [{ id := 5, endTime := 100, capacity := none,
                 requiresApproval := false, allowWaitlist := false,
                 createdById := 3 }],
    signups :=
      [ { id := 10, userId := 1, eventId := 5, signedUpById := none,
          status := .APPROVED, createdAt := 1, approvedAt := some 2,
          cancelledAt := none, checkedInAt := none, statusNote := none,
          approvedById := none } ],
    users := [⟨1, .STUDENT⟩], links := [], nextId := 11 }

/-- Witness for C9 (amended): the subject is permitted to cancel their
own signup. -/
theorem cancelSignup_permission_witness :
    ∃ db1, cancelSignup 7 10 1 C9dbB = .ok db1 := by
  refine ((cancelSignup_permission 7 10 1 C9dbB
    { id := 10, userId := 1, eventId := 5, signedUpById := none,
      status := .APPROVED, createdAt := 1, approvedAt := some 2,
      cancelledAt := none, checkedInAt := none, statusNote := none,
      approvedById := none }
    ⟨1, .STUDENT⟩ rfl rfl).1).mpr (Or.inr (Or.inl rfl))

/-- Event and store for the C5 race demonstration: one slot, waitlist
allowed, nobody signed up yet. -/
def C5ev : Event :=
  { id := 5, endTime := 100, capacity := some 1, requiresApproval := false,
    allowWaitlist := true, createdById := 0 }

/-- Initial store of the race. -/
def C5db : DB :=
  { events := [C5ev], signups := [], users := [], links := [], nextId := 0 }

/-- The store after the interleaving read(A), read(B), write(A),
write(B): both creates committed the `APPROVED` decision they read off
the same one-slot-free state. -/
def C5raceDB : DB :=
  (createApply 10 ⟨2, 5, none⟩ (.APPROVED, none)
    ((createApply 10 ⟨1, 5, none⟩ (.APPROVED, none) C5db).2)).2

/-- C5: the count query and the insert of `createSignup` are separate
store operations with no transaction or lock spanning them, so in the
interleaving where both requests run their read phase before either
write phase commits, both creates decide `APPROVED` on the capacity-1
event and both writes land: the final state holds two `APPROVED`
signups for a capacity of one. -/
theorem createSignup_race_both_approved :
    createDecide 10 ⟨1, 5, none⟩ C5db = .ok (.APPROVED, none) ∧
    createDecide 10 ⟨2, 5, none⟩ C5db = .ok (.APPROVED, none) ∧
    C5ev.capacity = some 1 ∧
    countConsuming C5raceDB 5 = 2 ∧
    (findSignupByPair C5raceDB 1 5).map EventSignup.status =
      some .APPROVED ∧
    (findSignupByPair C5raceDB 2 5).map EventSignup.status =
      some .APPROVED :=
  ⟨rfl, rfl, rfl, rfl, rfl, rfl⟩

end Signup

namespace Signup

/-- Inserting into the sorted list permutes with consing. -/
theorem insertByCreated_perm (s : EventSignup) (l : List EventSignup) :
    (insertByCreated s l).Perm (s :: l) := by
  induction l with
  | nil => exact List.Perm.refl _
  | cons t ts ih =>
    by_cases h : s.createdAt < t.createdAt
    · rw [insertByCreated, if_pos h]
    · rw [insertByCreated, if_neg h]
      exact (ih.cons t).trans (List.Perm.swap s t ts)

/-- The insertion sort permutes its input. -/
theorem sortByCreated_perm (l : List EventSignup) :
    (sortByCreated l).Perm l := by
  induction l with
  | nil => exact List.Perm.refl _
  | cons s ss ih =>
    exact (insertByCreated_perm s (sortByCreated ss)).trans (ih.cons s)

/-- Inserting preserves the sorted-by-creation pairwise order. -/
theorem insertByCreated_pairwise {l : List EventSignup}
    (hl : l.Pairwise (fun a b => a.createdAt ≤ b.createdAt)) (s : EventSignup) :
    (insertByCreated s l).Pairwise (fun a b => a.createdAt ≤ b.createdAt) := by
  induction l with
  | nil => simp [insertByCreated]
  | cons t ts ih =>
    obtain ⟨ht, hts⟩ := List.pairwise_cons.mp hl
    by_cases h : s.createdAt < t.createdAt
    · rw [insertByCreated, if_pos h]
      refine List.pairwise_cons.mpr ⟨?_, hl⟩
      intro b hb
      rcases List.mem_cons.mp hb with rfl | hb
      · exact le_of_lt h
      · exact (le_of_lt h).trans (ht b hb)
    · rw [insertByCreated, if_neg h]
      refine List.pairwise_cons.mpr ⟨?_, ih hts⟩
      intro b hb
      rcases List.mem_cons.mp ((insertByCreated_perm s ts).mem_iff.mp hb)
        with rfl | hb2
      · exact le_of_not_lt h
      · exact ht b hb2

/-- The insertion sort sorts by ascending creation time. -/
theorem sortByCreated_sorted (l : List EventSignup) :
    (sortByCreated l).Pairwise (fun a b => a.createdAt ≤ b.createdAt) := by
  induction l with
  | nil => exact List.Pairwise.nil
  | cons s ss ih => exact insertByCreated_pairwise ih s

/-- Under distinct ids, mapping an id-preserving transform over the store
and looking up a member's id finds the transformed record. -/
theorem find?_map_of_preserving {l : List EventSignup}
    (hn : (l.map EventSignup.id).Nodup) (g : EventSignup → EventSignup)
    (hg : ∀ t, (g t).id = t.id) {r : EventSignup} (hr : r ∈ l) :
    (l.map g).find? (fun t => decide (t.id = r.id)) = some (g r) := by
  induction l with
  | nil => cases hr
  | cons a t ih =>
    rcases List.mem_cons.mp hr with rfl | h
    · rw [List.map_cons]
      exact List.find?_cons_of_pos _ (by simp [hg])
    · have hna : a.id ≠ r.id := fun he =>
        (List.nodup_cons.mp (by simpa using hn)).1
          (he ▸ List.mem_map_of_mem EventSignup.id h)
      rw [List.map_cons, List.find?_cons_of_neg _ (by simp [hg, hna])]
      exact ih (List.nodup_cons.mp (by simpa using hn)).2 h

end Signup

namespace Signup

/-- C3: the waitlist promoter is a no-op when the event has no capacity
limit, requires approval, or disallows waitlisting, and likewise when no
slot is free; otherwise, with `freeSlots = capacity - consumingCount`
positive and distinct creation times, it promotes exactly the
`min freeSlots #waitlisted` earliest-created `WAITLISTED` signups of the
event to `APPROVED`, stamping each with the promotion time and the
automatic-promotion note, and leaves every other waitlisted signup
unchanged. -/
theorem promoteWaitlist_fifo
    (now : Int) (eid : Nat) (db : DB) (ev : Event)
    (hn : (db.signups.map EventSignup.id).Nodup)
    (hev : findEvent db eid = some ev) :
    ((ev.capacity = none ∨ ev.requiresApproval = true ∨
        ev.allowWaitlist = false) →
      promoteWaitlist now eid db = db) ∧
    (∀ cap, ev.capacity = some cap → cap ≤ countConsuming db eid →
      promoteWaitlist now eid db = db) ∧
    (∀ cap, ev.capacity = some cap → ev.requiresApproval = false →
      ev.allowWaitlist = true → countConsuming db eid < cap →
      (waitlistedFor db eid).Pairwise
        (fun a b => a.createdAt ≠ b.createdAt) →
      ∃ P D : List EventSignup, (P ++ D).Perm (waitlistedFor db eid) ∧
        P.length = min (cap - countConsuming db eid)
          (waitlistedFor db eid).length ∧
        (∀ p ∈ P, ∀ d ∈ D, p.createdAt < d.createdAt) ∧
        (∀ p ∈ P, findSignupById (promoteWaitlist now eid db) p.id =
          some { p with
                  status := .APPROVED
                  approvedAt := some now
                  statusNote := some "Auto-promoted from waitlist." }) ∧
        (∀ d ∈ D, findSignupById (promoteWaitlist now eid db) d.id =
          some d)) := by
  refine ⟨?_, ?_, ?_⟩
  · intro h
    rcases h with h | h | h
    · cases hra : ev.requiresApproval <;> cases hwl : ev.allowWaitlist <;>
        simp [promoteWaitlist, hev, hra, hwl, h]
    · simp [promoteWaitlist, hev, h]
    · cases hra : ev.requiresApproval <;>
        simp [promoteWaitlist, hev, hra, h]
  · intro cap hcap hge
    cases hra : ev.requiresApproval <;> cases hwl : ev.allowWaitlist <;>
      simp [promoteWaitlist, hev, hra, hwl, hcap, hge]
  · intro cap hcap hra hwl hlt hdist
    have hcap0 : ¬ cap = 0 := by omega
    have hnle : ¬ cap ≤ countConsuming db eid := Nat.not_le.mpr hlt
    set W := waitlistedFor db eid with hWdef
    set slots := cap - countConsuming db eid with hslots
    set P := (sortByCreated W).take slots with hPdef
    set D := (sortByCreated W).drop slots with hDdef
    have hperm : (sortByCreated W).Perm W := sortByCreated_perm W
    have hPD : P ++ D = sortByCreated W := List.take_append_drop slots _
    have hres : promoteWaitlist now eid db =
        (if P.isEmpty then db
         else { db with
                signups := promoteSelected (P.map EventSignup.id) now
                  db.signups }) := by
      unfold promoteWaitlist
      rw [hev]
      simp only
      rw [hra, hwl, hcap]
      simp only [Bool.not_true]
      rw [if_neg Bool.false_ne_true, if_neg Bool.false_ne_true]
      rw [if_neg hcap0]
      rw [if_neg hnle]
    have hWsub : ∀ x ∈ W, x ∈ db.signups := by
      intro x hx
      exact List.mem_of_mem_filter hx
    have hWnodup : (W.map EventSignup.id).Nodup :=
      ((List.filter_sublist db.signups).map EventSignup.id).nodup hn
    have hSnodup : ((sortByCreated W).map EventSignup.id).Nodup :=
      ((hperm.map EventSignup.id).nodup_iff).mpr hWnodup
    have hPmem : ∀ p ∈ P, p ∈ db.signups := by
      intro p hp
      exact hWsub p (hperm.subset (List.take_subset slots _ hp))
    have hDmem : ∀ d ∈ D, d ∈ db.signups := by
      intro d hd
      exact hWsub d (hperm.subset (List.drop_subset slots _ hd))
    have hdisj : ∀ d ∈ D, d.id ∉ P.map EventSignup.id := by
      intro d hd hmem
      rw [← hPD, List.map_append] at hSnodup
      exact (List.nodup_append.mp hSnodup).2.2 hmem
        (List.mem_map_of_mem EventSignup.id hd)
    have hgid : ∀ t : EventSignup,
        (if t.id ∈ P.map EventSignup.id then
          { t with
            status := SignupStatus.APPROVED
            approvedAt := some now
            statusNote := some "Auto-promoted from waitlist." }
         else t).id = t.id := by
      intro t
      by_cases h : t.id ∈ P.map EventSignup.id <;> simp [h]
    have hsorted := sortByCreated_sorted W
    have hle : ∀ p ∈ P, ∀ d ∈ D, p.createdAt ≤ d.createdAt := by
      rw [← hPD] at hsorted
      exact fun p hp d hd => (List.pairwise_append.mp hsorted).2.2 p hp d hd
    have hne : ∀ p ∈ P, ∀ d ∈ D, p.createdAt ≠ d.createdAt := by
      have hdist2 : (sortByCreated W).Pairwise
          (fun a b => a.createdAt ≠ b.createdAt) :=
        (List.Perm.pairwise_iff (fun h => h.symm) hperm).mpr hdist
      rw [← hPD] at hdist2
      exact fun p hp d hd => (List.pairwise_append.mp hdist2).2.2 p hp d hd
    refine ⟨P, D, by rw [hPD]; exact hperm, ?_,
      fun p hp d hd => lt_of_le_of_ne (hle p hp d hd) (hne p hp d hd),
      ?_, ?_⟩
    · rw [hPdef, List.length_take, hperm.length_eq]
    · intro p hp
      have hempty : ¬ P.isEmpty := by
        intro h
        rw [List.isEmpty_iff] at h
        rw [h] at hp
        cases hp
      rw [hres, if_neg hempty]
      show (promoteSelected (P.map EventSignup.id) now db.signups).find?
        (fun t => decide (t.id = p.id)) = _
      simp only [promoteSelected]
      rw [find?_map_of_preserving hn _ hgid (hPmem p hp)]
      rw [if_pos (List.mem_map_of_mem EventSignup.id hp)]
    · intro d hd
      by_cases hempty : P.isEmpty
      · rw [hres, if_pos hempty]
        exact find?_id_of_mem hn (hDmem d hd)
      · rw [hres, if_neg hempty]
        show (promoteSelected (P.map EventSignup.id) now db.signups).find?
          (fun t => decide (t.id = d.id)) = _
        simp only [promoteSelected]
        rw [find?_map_of_preserving hn _ hgid (hDmem d hd)]
        rw [if_neg (hdisj d hd)]

/-- Event for the C3 witness. -/
def C3ev : Event :=
  { id := 5, endTime := 100, capacity := some 2, requiresApproval := false,
    allowWaitlist := true, createdById := 0 }

/-- Store for the C3 witness: one approved signup and two waitlisted ones
with distinct creation times, so one slot is free. -/
def C3db : DB :=
  { events := [C3ev],
    signups :=
      [ { id := 20, userId := 1, eventId := 5, signedUpById := none,
          status := .APPROVED, createdAt := 1, approvedAt := some 2,
          cancelledAt := none, checkedInAt := none, statusNote := none,
          approvedById := none },
        { id := 21, userId := 2, eventId := 5, signedUpById := none,
          status := .WAITLISTED, createdAt := 10, approvedAt := none,
          cancelledAt := none, checkedInAt := none, statusNote := none,
          approvedById := none },
        { id := 22, userId := 3, eventId := 5, signedUpById := none,
          status := .WAITLISTED, createdAt := 20, approvedAt := none,
          cancelledAt := none, checkedInAt := none, statusNote := none,
          approvedById := none } ],
    users := [], links := [], nextId := 23 }

/-- Witness for C3: with one free slot and two waitlisted signups the
promoter promotes exactly the earlier-created one. -/
theorem promoteWaitlist_fifo_witness :
    countConsuming C3db 5 < 2 ∧
    ∃ P D : List EventSignup, (P ++ D).Perm (waitlistedFor C3db 5) ∧
      P.length = min (2 - countConsuming C3db 5)
        (waitlistedFor C3db 5).length ∧
      (∀ p ∈ P, ∀ d ∈ D, p.createdAt < d.createdAt) ∧
      (∀ p ∈ P, findSignupById (promoteWaitlist 50 5 C3db) p.id =
        some { p with
                status := .APPROVED
                approvedAt := some 50
                statusNote := some "Auto-promoted from waitlist." }) ∧
      (∀ d ∈ D, findSignupById (promoteWaitlist 50 5 C3db) d.id =
        some d) := by
  refine ⟨by decide, ?_⟩
  exact (promoteWaitlist_fifo 50 5 C3db C3ev (by decide) rfl).2.2 2 rfl rfl
    rfl (by decide) (by decide)

end Signup

namespace Signup

/-- Facts recorded by a successful pair lookup. -/
theorem findSignupByPair_props {db : DB} {u e : Nat} {ex : EventSignup}
    (h : findSignupByPair db u e = some ex) :
    ex ∈ db.signups ∧ ex.userId = u ∧ ex.eventId = e := by
  refine ⟨List.mem_of_find?_eq_some h, ?_, ?_⟩
  · have := List.find?_some h
    simp only [decide_eq_true_eq] at this
    exact this.1
  · have := List.find?_some h
    simp only [decide_eq_true_eq] at this
    exact this.2

/-- Facts recorded by a successful id lookup. -/
theorem findSignupById_props {db : DB} {i : Nat} {s : EventSignup}
    (h : findSignupById db i = some s) :
    s ∈ db.signups ∧ s.id = i := by
  refine ⟨List.mem_of_find?_eq_some h, ?_⟩
  have := List.find?_some h
  simpa using this

/-- Under distinct ids, a member event is what its id finds. -/
theorem find?_eid_of_mem {l : List Event}
    (hn : (l.map Event.id).Nodup) {e : Event} (he : e ∈ l) :
    l.find? (fun t => decide (t.id = e.id)) = some e := by
  induction l with
  | nil => cases he
  | cons a t ih =>
    have hn2 := hn
    rw [List.map_cons, List.nodup_cons] at hn2
    rcases List.mem_cons.mp he with rfl | h
    · exact List.find?_cons_of_pos _ (by simp)
    · have hna : a.id ≠ e.id := fun hee =>
        hn2.1 (hee ▸ List.mem_map_of_mem Event.id h)
      rw [List.find?_cons_of_neg _ (by simpa using hna)]
      exact ih hn2.2 h

/-- `findEvent` finds a member event by its id. -/
theorem findEvent_of_mem {db : DB}
    (hn : (db.events.map Event.id).Nodup) {e : Event} (he : e ∈ db.events) :
    findEvent db e.id = some e :=
  find?_eid_of_mem hn he

/-- Counting after a keyed single-record rewrite: the old record's
contribution is exchanged for the new record's. -/
theorem countP_map_update {l : List EventSignup}
    (hn : (l.map EventSignup.id).Nodup) {i : Nat} {r : EventSignup}
    (hr : r ∈ l) (hi : r.id = i) (f : EventSignup → EventSignup)
    (p : EventSignup → Bool) :
    (l.map (fun s => if s.id = i then f s else s)).countP p +
      (if p r then 1 else 0) =
    l.countP p + (if p (f r) then 1 else 0) := by
  induction l with
  | nil => cases hr
  | cons a t ih =>
    have hn2 := hn
    rw [List.map_cons, List.nodup_cons] at hn2
    rcases List.mem_cons.mp hr with rfl | h
    · have htid : ∀ s ∈ t, ¬ s.id = i := by
        intro s hs he2
        have hm : s.id ∈ t.map EventSignup.id :=
          List.mem_map_of_mem EventSignup.id hs
        rw [he2, ← hi] at hm
        exact hn2.1 hm
      have hmap : t.map (fun s => if s.id = i then f s else s) = t := by
        rw [List.map_congr_left (fun s hs => if_neg (htid s hs))]
        exact List.map_id t
      rw [List.map_cons, if_pos hi, hmap, List.countP_cons, List.countP_cons]
      omega
    · have hna : ¬ a.id = i := by
        intro he2
        have hm : r.id ∈ t.map EventSignup.id :=
          List.mem_map_of_mem EventSignup.id h
        rw [hi, ← he2] at hm
        exact hn2.1 hm
      rw [List.map_cons, if_neg hna, List.countP_cons, List.countP_cons]
      have ih2 := ih hn2.2 h
      omega

/-- The exchange law lifted to `countConsuming` and `updateSignup`. -/
theorem countConsuming_updateSignup {db : DB}
    (hn : (db.signups.map EventSignup.id).Nodup) {i : Nat} {r : EventSignup}
    (hr : findSignupById db i = some r) (f : EventSignup → EventSignup)
    (e : Nat) :
    countConsuming (updateSignup db i f) e +
      (if consumesFor e r then 1 else 0) =
    countConsuming db e + (if consumesFor e (f r) then 1 else 0) := by
  obtain ⟨hmem, hid⟩ := findSignupById_props hr
  exact countP_map_update hn hmem hid f (consumesFor e)

/-- Mapping an id-preserving transform leaves the id column unchanged. -/
theorem map_id_of_preserving (l : List EventSignup)
    (g : EventSignup → EventSignup) (hg : ∀ s, (g s).id = s.id) :
    (l.map g).map EventSignup.id = l.map EventSignup.id := by
  rw [List.map_map]
  exact List.map_congr_left (fun s _ => hg s)

/-- Counting after a guarded batch rewrite splits into the rewritten and
untouched contributions. -/
theorem countP_map_ite (p : EventSignup → Bool) (q : EventSignup → Prop)
    [DecidablePred q] (f : EventSignup → EventSignup) (l : List EventSignup) :
    (l.map (fun s => if q s then f s else s)).countP p =
      l.countP (fun s => decide (q s) && p (f s)) +
      l.countP (fun s => !decide (q s) && p s) := by
  induction l with
  | nil => rfl
  | cons a t ih =>
    rw [List.map_cons, List.countP_cons, List.countP_cons, List.countP_cons,
      ih]
    by_cases hq : q a
    · rw [if_pos hq]
      by_cases hp : p (f a) <;> simp [hq, hp] <;> omega
    · rw [if_neg hq]
      by_cases hp : p a <;> simp [hq, hp] <;> omega

/-- At most `ids.length` records of an id-distinct store match a list of
distinct ids. -/
theorem countP_mem_ids_le {l : List EventSignup}
    (hn : (l.map EventSignup.id).Nodup) (ids : List Nat) :
    l.countP (fun s => decide (s.id ∈ ids)) ≤ ids.length := by
  rw [List.countP_eq_length_filter]
  have hsub : (l.filter (fun s => decide (s.id ∈ ids))).map EventSignup.id
      ⊆ ids := by
    intro x hx
    obtain ⟨s, hs, rfl⟩ := List.mem_map.mp hx
    have := List.of_mem_filter hs
    simpa using this
  have hnod : ((l.filter (fun s => decide (s.id ∈ ids))).map
      EventSignup.id).Nodup :=
    ((List.filter_sublist l).map EventSignup.id).nodup hn
  have := List.Subperm.length_le (hnod.subperm hsub)
  simpa using this

end Signup

namespace Signup

/-- Every run of the waitlist promoter either leaves the store unchanged
or batch-promotes the ids of an under-capacity selection of the event's
waitlisted records. -/
theorem promoteWaitlist_shape (now : Int) (eid : Nat) (db : DB) :
    promoteWaitlist now eid db = db ∨
    ∃ ev cap, findEvent db eid = some ev ∧ ev.capacity = some cap ∧
      countConsuming db eid < cap ∧
      promoteWaitlist now eid db =
        { db with
          signups := promoteSelected
            (((sortByCreated (waitlistedFor db eid)).take
              (cap - countConsuming db eid)).map EventSignup.id)
            now db.signups } := by
  unfold promoteWaitlist
  cases hev : findEvent db eid with
  | none => exact Or.inl rfl
  | some ev =>
    simp only
    by_cases hra : ev.requiresApproval = true
    · rw [if_pos hra]
      exact Or.inl rfl
    · rw [if_neg hra]
      by_cases hwl : (!ev.allowWaitlist) = true
      · rw [if_pos hwl]
        exact Or.inl rfl
      · rw [if_neg hwl]
        cases hcap : ev.capacity with
        | none => exact Or.inl rfl
        | some cap =>
          simp only
          by_cases hc0 : cap = 0
          · rw [if_pos hc0]
            exact Or.inl rfl
          · rw [if_neg hc0]
            by_cases hle : cap ≤ countConsuming db eid
            · rw [if_pos hle]
              exact Or.inl rfl
            · rw [if_neg hle]
              by_cases hE : ((sortByCreated (waitlistedFor db eid)).take
                  (cap - countConsuming db eid)).isEmpty = true
              · rw [if_pos hE]
                exact Or.inl rfl
              · rw [if_neg hE]
                exact Or.inr ⟨ev, cap, rfl, hcap, Nat.not_le.mp hle, rfl⟩

/-- Membership facts of the waitlisted filter. -/
theorem mem_waitlistedFor {db : DB} {eid : Nat} {s : EventSignup}
    (h : s ∈ waitlistedFor db eid) :
    s ∈ db.signups ∧ s.eventId = eid ∧ s.status = .WAITLISTED := by
  have hm := List.mem_of_mem_filter h
  have hp := List.of_mem_filter h
  simp only [decide_eq_true_eq] at hp
  exact ⟨hm, hp.1, hp.2⟩

/-- The promoter preserves the capacity invariant. -/
theorem promoteWaitlist_capOk (now : Int) (eid : Nat) (db : DB)
    (hne : (db.events.map Event.id).Nodup)
    (hn : (db.signups.map EventSignup.id).Nodup)
    (hcap : CapOk db) : CapOk (promoteWaitlist now eid db) := by
  rcases promoteWaitlist_shape now eid db with h | ⟨ev, cap, hev, hevcap, hlt, h⟩
  · rw [h]
    exact hcap
  · rw [h]
    intro e he cap2 hecap
    have he2 : e ∈ db.events := he
    set sel := (sortByCreated (waitlistedFor db eid)).take
      (cap - countConsuming db eid) with hsel
    have hselsub : ∀ x ∈ sel, x ∈ waitlistedFor db eid := by
      intro x hx
      exact (sortByCreated_perm _).subset (List.take_subset _ _ hx)
    have hcnt : countConsuming
        { db with
          signups := promoteSelected (sel.map EventSignup.id) now db.signups }
        e.id =
        db.signups.countP (fun s =>
          decide (s.id ∈ sel.map EventSignup.id) &&
          consumesFor e.id
            { s with
              status := SignupStatus.APPROVED
              approvedAt := some now
              statusNote := some "Auto-promoted from waitlist." }) +
        db.signups.countP (fun s =>
          !decide (s.id ∈ sel.map EventSignup.id) && consumesFor e.id s) := by
      show (promoteSelected (sel.map EventSignup.id) now db.signups).countP
        (consumesFor e.id) = _
      simp only [promoteSelected]
      exact countP_map_ite (consumesFor e.id)
        (fun s => s.id ∈ sel.map EventSignup.id) _ db.signups
    by_cases heid : e.id = eid
    · subst heid
      have hee : e = ev := by
        have h1 : findEvent db e.id = some e := findEvent_of_mem hne he2
        rw [h1] at hev
        exact (Option.some.inj hev)
      have hcap2 : cap2 = cap := by
        rw [hee] at hecap
        rw [hecap] at hevcap
        exact Option.some.inj hevcap
      rw [hcnt]
      have h1 : db.signups.countP (fun s =>
          decide (s.id ∈ sel.map EventSignup.id) &&
          consumesFor e.id
            { s with
              status := SignupStatus.APPROVED
              approvedAt := some now
              statusNote := some "Auto-promoted from waitlist." }) ≤
          (sel.map EventSignup.id).length :=
        le_trans (List.countP_mono_left (fun s _ hs => by
          simp only [Bool.and_eq_true] at hs
          simpa using hs.1)) (countP_mem_ids_le hn (sel.map EventSignup.id))
      have h2 : db.signups.countP (fun s =>
          !decide (s.id ∈ sel.map EventSignup.id) && consumesFor e.id s) ≤
          countConsuming db e.id :=
        List.countP_mono_left (fun s _ hs => by
          simp only [Bool.and_eq_true] at hs
          exact hs.2)
      have h3 : (sel.map EventSignup.id).length ≤
          cap - countConsuming db e.id := by
        rw [List.length_map]
        exact List.length_take_le _ _
      rw [hcap2]
      omega
    · rw [hcnt]
      have h1 : db.signups.countP (fun s =>
          decide (s.id ∈ sel.map EventSignup.id) &&
          consumesFor e.id
            { s with
              status := SignupStatus.APPROVED
              approvedAt := some now
              statusNote := some "Auto-promoted from waitlist." }) = 0 := by
        rw [List.countP_eq_zero]
        intro s hs hcontra
        simp only [Bool.and_eq_true] at hcontra
        obtain ⟨hin, hcons⟩ := hcontra
        simp only [decide_eq_true_eq] at hin
        obtain ⟨x, hx, hxid⟩ := List.mem_map.mp hin
        have hxw := mem_waitlistedFor (hselsub x hx)
        have hsx : s = x :=
          List.inj_on_of_nodup_map hn hs hxw.1 hxid.symm
        have : s.eventId = eid := by rw [hsx]; exact hxw.2.1
        simp only [consumesFor, Bool.and_eq_true, decide_eq_true_eq]
          at hcons
        exact heid (hcons.1 ▸ this ▸ rfl)
      have h2 : db.signups.countP (fun s =>
          !decide (s.id ∈ sel.map EventSignup.id) && consumesFor e.id s) ≤
          countConsuming db e.id :=
        List.countP_mono_left (fun s _ hs => by
          simp only [Bool.and_eq_true] at hs
          exact hs.2)
      have h4 := hcap e he2 cap2 hecap
      omega

end Signup

namespace Signup

/-- Terminated statuses never consume capacity. -/
theorem isConsuming_of_terminated {st : SignupStatus}
    (h : isTerminated st = true) : isConsuming st = false := by
  cases st <;> simp_all [isTerminated, isConsuming]

/-- A successful create read phase saw the event. -/
theorem createDecide_ok_event {now : Int} {inp : CreateSignupInput} {db : DB}
    {st : SignupStatus} {exo : Option EventSignup}
    (h : createDecide now inp db = .ok (st, exo)) :
    ∃ event, findEvent db inp.eventId = some event := by
  unfold createDecide at h
  cases hev : findEvent db inp.eventId with
  | none => rw [hev] at h; simp at h
  | some event => exact ⟨event, rfl⟩

/-- A create read phase that captured an existing record saw it
cancelled or declined. -/
theorem createDecide_ok_terminated {now : Int} {inp : CreateSignupInput}
    {db : DB} {st : SignupStatus} {ex : EventSignup}
    (h : createDecide now inp db = .ok (st, some ex)) :
    isTerminated ex.status = true := by
  have hexo := (createDecide_existing h).symm
  unfold createDecide at h
  cases hev : findEvent db inp.eventId with
  | none => rw [hev] at h; simp at h
  | some event =>
    rw [hev] at h
    simp only at h
    by_cases hend : event.endTime < now
    · rw [if_pos hend] at h; simp at h
    · rw [if_neg hend] at h
      by_cases hg : (Option.map (fun ex2 => !isTerminated ex2.status)
          (findSignupByPair db inp.userId inp.eventId)).getD false = true
      · rw [if_pos hg] at h; simp at h
      · rw [hexo] at hg
        simp only [Option.map_some', Option.getD_some] at hg
        cases hst : isTerminated ex.status with
        | true => rfl
        | false => exact absurd (by simp [hst]) hg

/-- The possible outcomes of the target-status decision. -/
theorem decideTarget_ok_cases {event : Event} {cnt : Nat} {st : SignupStatus}
    (h : decideTarget event cnt = .ok st) :
    st = .PENDING ∨ st = .WAITLISTED ∨
    (st = .APPROVED ∧ (event.capacity = none ∨
      ∃ cap, event.capacity = some cap ∧ cnt < cap)) := by
  unfold decideTarget at h
  by_cases hra : event.requiresApproval = true
  · rw [if_pos hra] at h
    exact Or.inl (Except.ok.inj h).symm
  · rw [if_neg hra] at h
    cases hcap : event.capacity with
    | none =>
      rw [hcap] at h
      exact Or.inr (Or.inr ⟨(Except.ok.inj h).symm, Or.inl rfl⟩)
    | some cap =>
      rw [hcap] at h
      simp only at h
      by_cases hge : cnt ≥ cap
      · rw [if_pos hge] at h
        by_cases hwl : event.allowWaitlist = true
        · rw [if_pos hwl] at h
          exact Or.inr (Or.inl (Except.ok.inj h).symm)
        · rw [if_neg hwl] at h
          simp at h
      · rw [if_neg hge] at h
        exact Or.inr (Or.inr ⟨(Except.ok.inj h).symm,
          Or.inr ⟨cap, rfl, Nat.not_le.mp hge⟩⟩)

/-- A keyed single-record rewrite with an id-preserving transform keeps
the store well-formed. -/
theorem WF_updateSignup {db : DB} (hwf : WF db) (i : Nat)
    (f : EventSignup → EventSignup) (hf : ∀ s, (f s).id = s.id) :
    WF (updateSignup db i f) := by
  obtain ⟨h1, h2, h3⟩ := hwf
  refine ⟨h1, ?_, ?_⟩
  · show ((db.signups.map (fun s => if s.id = i then f s else s)).map
      EventSignup.id).Nodup
    rw [map_id_of_preserving _ _ (fun s => by
      by_cases h : s.id = i
      · rw [if_pos h, hf]
      · rw [if_neg h])]
    exact h2
  · intro s hs
    obtain ⟨t, ht, rfl⟩ := List.mem_map.mp hs
    have hlt := h3 t ht
    by_cases h : t.id = i
    · show (if t.id = i then f t else t).id < _
      rw [if_pos h, hf]
      exact hlt
    · show (if t.id = i then f t else t).id < _
      rw [if_neg h]
      exact hlt

/-- The waitlist promoter keeps the store well-formed. -/
theorem WF_promoteWaitlist (now : Int) (eid : Nat) {db : DB} (hwf : WF db) :
    WF (promoteWaitlist now eid db) := by
  rcases promoteWaitlist_shape now eid db with h | ⟨ev, cap, hev, hc, hlt, h⟩
  · rw [h]
    exact hwf
  · rw [h]
    obtain ⟨h1, h2, h3⟩ := hwf
    refine ⟨h1, ?_, ?_⟩
    · show ((promoteSelected _ now db.signups).map EventSignup.id).Nodup
      simp only [promoteSelected]
      rw [map_id_of_preserving _ _ (fun s => by
        by_cases hh : s.id ∈ ((sortByCreated (waitlistedFor db eid)).take
            (cap - countConsuming db eid)).map EventSignup.id
        · rw [if_pos hh]
        · rw [if_neg hh])]
      exact h2
    · intro s hs
      simp only [promoteSelected] at hs
      obtain ⟨t, ht, rfl⟩ := List.mem_map.mp hs
      have hlt2 := h3 t ht
      by_cases hh : t.id ∈ ((sortByCreated (waitlistedFor db eid)).take
          (cap - countConsuming db eid)).map EventSignup.id
      · show (if t.id ∈ _ then _ else t).id < _
        rw [if_pos hh]
        exact hlt2
      · show (if t.id ∈ _ then _ else t).id < _
        rw [if_neg hh]
        exact hlt2

end Signup

namespace Signup

/-- A successful create keeps the store well-formed and within
capacity. -/
theorem createSignup_preserves {now : Int} {inp : CreateSignupInput}
    {db : DB} {r : EventSignup} {db1 : DB}
    (hwf : WF db) (hcap : CapOk db)
    (hok : createSignup now inp db = .ok (r, db1)) :
    WF db1 ∧ CapOk db1 := by
  obtain ⟨hne, hn, hb⟩ := hwf
  cases hdec : createDecide now inp db with
  | error e =>
    unfold createSignup at hok
    rw [hdec] at hok
    simp at hok
  | ok dec =>
    obtain ⟨st, exo⟩ := dec
    obtain ⟨event, hev⟩ := createDecide_ok_event hdec
    have hdt := createDecide_target hdec hev
    unfold createSignup at hok
    rw [hdec] at hok
    cases exo with
    | some ex =>
      have hterm := createDecide_ok_terminated hdec
      have hexo : findSignupByPair db inp.userId inp.eventId = some ex :=
        (createDecide_existing hdec).symm
      obtain ⟨hexmem, hexuid, hexeid⟩ := findSignupByPair_props hexo
      simp only [createApply] at hok
      have h1 := Except.ok.inj hok
      have hdb : db1 = updateSignup db ex.id (fun s =>
          { s with
            signedUpById := inp.signedUpById
            status := st
            approvedAt := if st = .APPROVED then some now else none
            cancelledAt := none
            statusNote := none }) := (congrArg Prod.snd h1).symm
      constructor
      · rw [hdb]
        exact WF_updateSignup ⟨hne, hn, hb⟩ _ _ (fun s => rfl)
      · rw [hdb]
        intro e2 he2 cap2 hecap2
        have hfind : findSignupById db ex.id = some ex :=
          find?_id_of_mem hn hexmem
        have hex1 := countConsuming_updateSignup hn hfind (fun s =>
          { s with
            signedUpById := inp.signedUpById
            status := st
            approvedAt := if st = .APPROVED then some now else none
            cancelledAt := none
            statusNote := none }) e2.id
        have hc1 : consumesFor e2.id ex = false := by
          simp [consumesFor, isConsuming_of_terminated hterm]
        rw [hc1] at hex1
        simp only [Bool.false_eq_true, if_false, Nat.add_zero] at hex1
        by_cases he2id : e2.id = inp.eventId
        · have hevE2 : findEvent db e2.id = some e2 := findEvent_of_mem hne he2
          rw [he2id, hev] at hevE2
          have hee : e2 = event := (Option.some.inj hevE2).symm
          rcases decideTarget_ok_cases hdt with hst | hst | ⟨hst, hrest⟩
          · have hc2 : consumesFor e2.id ({ ex with
                signedUpById := inp.signedUpById
                status := st
                approvedAt := if st = .APPROVED then some now else none
                cancelledAt := none
                statusNote := none } : EventSignup) = false := by
              simp [consumesFor, hst, isConsuming]
            rw [hc2] at hex1
            simp only [Bool.false_eq_true, if_false, Nat.add_zero] at hex1
            rw [hex1]
            exact hcap e2 he2 cap2 hecap2
          · have hc2 : consumesFor e2.id ({ ex with
                signedUpById := inp.signedUpById
                status := st
                approvedAt := if st = .APPROVED then some now else none
                cancelledAt := none
                statusNote := none } : EventSignup) = false := by
              simp [consumesFor, hst, isConsuming]
            rw [hc2] at hex1
            simp only [Bool.false_eq_true, if_false, Nat.add_zero] at hex1
            rw [hex1]
            exact hcap e2 he2 cap2 hecap2
          · rcases hrest with hnone | ⟨cap, hc, hlt⟩
            · rw [← hee] at hnone
              rw [hnone] at hecap2
              cases hecap2
            · rw [← hee] at hc
              rw [hc] at hecap2
              have hcc : cap = cap2 := Option.some.inj hecap2
              have hc2 : consumesFor e2.id ({ ex with
                  signedUpById := inp.signedUpById
                  status := st
                  approvedAt := if st = .APPROVED then some now else none
                  cancelledAt := none
                  statusNote := none } : EventSignup) = true := by
                simp [consumesFor, hst, isConsuming, hexeid, he2id]
              rw [hc2] at hex1
              simp only [if_true] at hex1
              rw [he2id]
              rw [he2id] at hex1
              omega
        · have hc2 : consumesFor e2.id ({ ex with
              signedUpById := inp.signedUpById
              status := st
              approvedAt := if st = .APPROVED then some now else none
              cancelledAt := none
              statusNote := none } : EventSignup) = false := by
            have hne2 : ¬ ex.eventId = e2.id := by
              rw [hexeid]
              exact fun hh => he2id hh.symm
            simp [consumesFor, hne2]
          rw [hc2] at hex1
          simp only [Bool.false_eq_true, if_false, Nat.add_zero] at hex1
          rw [hex1]
          exact hcap e2 he2 cap2 hecap2
    | none =>
      simp only [createApply] at hok
      have h1 := Except.ok.inj hok
      have hdb : db1 = { db with
          signups := db.signups ++
            [{ id := db.nextId
               userId := inp.userId
               eventId := inp.eventId
               signedUpById := inp.signedUpById
               status := st
               createdAt := now
               approvedAt := if st = .APPROVED then some now else none
               cancelledAt := none
               checkedInAt := none
               statusNote := none
               approvedById := none }]
          nextId := db.nextId + 1 } := (congrArg Prod.snd h1).symm
      have hnot : db.nextId ∉ db.signups.map EventSignup.id := by
        intro hmem
        obtain ⟨t, ht, hid⟩ := List.mem_map.mp hmem
        exact absurd hid (Nat.ne_of_lt (hb t ht))
      constructor
      · rw [hdb]
        refine ⟨hne, ?_, ?_⟩
        · show ((db.signups ++ [_]).map EventSignup.id).Nodup
          rw [List.map_append]
          rw [List.nodup_append]
          refine ⟨hn, List.nodup_singleton _, ?_⟩
          intro x hx hx2
          simp only [List.map_cons, List.map_nil, List.mem_singleton] at hx2
          rw [hx2] at hx
          exact hnot hx
        · intro s hs
          rcases List.mem_append.mp hs with h | h
          · exact Nat.lt_trans (hb s h) (Nat.lt_succ_self _)
          · simp only [List.mem_singleton] at h
            rw [h]
            exact Nat.lt_succ_self _
      · rw [hdb]
        intro e2 he2 cap2 hecap2
        have hcnt : countConsuming { db with
            signups := db.signups ++
              [{ id := db.nextId
                 userId := inp.userId
                 eventId := inp.eventId
                 signedUpById := inp.signedUpById
                 status := st
                 createdAt := now
                 approvedAt := if st = .APPROVED then some now else none
                 cancelledAt := none
                 checkedInAt := none
                 statusNote := none
                 approvedById := none }]
            nextId := db.nextId + 1 } e2.id =
            countConsuming db e2.id +
            (if (decide (inp.eventId = e2.id) && isConsuming st) then 1
             else 0) := by
          show (db.signups ++ [_]).countP (consumesFor e2.id) = _
          rw [List.countP_append, List.countP_cons, List.countP_nil]
          simp only [Nat.zero_add]
          rfl
        rw [hcnt]
        by_cases he2id : e2.id = inp.eventId
        · have hevE2 : findEvent db e2.id = some e2 := findEvent_of_mem hne he2
          rw [he2id, hev] at hevE2
          have hee : e2 = event := (Option.some.inj hevE2).symm
          rcases decideTarget_ok_cases hdt with hst | hst | ⟨hst, hrest⟩
          · simp only [hst, isConsuming, Bool.and_false, Bool.false_eq_true,
              if_false, Nat.add_zero]
            exact hcap e2 he2 cap2 hecap2
          · simp only [hst, isConsuming, Bool.and_false, Bool.false_eq_true,
              if_false, Nat.add_zero]
            exact hcap e2 he2 cap2 hecap2
          · rcases hrest with hnone | ⟨cap, hc, hlt⟩
            · rw [← hee] at hnone
              rw [hnone] at hecap2
              cases hecap2
            · rw [← hee] at hc
              rw [hc] at hecap2
              have hcc : cap = cap2 := Option.some.inj hecap2
              simp only [hst, isConsuming, Bool.and_true]
              rw [he2id]
              simp only [decide_True, if_true]
              omega
        · have hne2 : decide (inp.eventId = e2.id) = false :=
            decide_eq_false (fun hh => he2id hh.symm)
          simp only [hne2, Bool.false_and, Bool.false_eq_true, if_false,
            Nat.add_zero]
          exact hcap e2 he2 cap2 hecap2

end Signup

namespace Signup

/-- A successful approve keeps the store well-formed and within
capacity. -/
theorem approveSignup_preserves {now : Int} {sid aid : Nat} {db : DB}
    {r : EventSignup} {db1 : DB}
    (hwf : WF db) (hcap : CapOk db)
    (hok : approveSignup now sid aid db = .ok (r, db1)) :
    WF db1 ∧ CapOk db1 := by
  obtain ⟨hne, hn, hb⟩ := hwf
  unfold approveSignup at hok
  cases hs : findSignupById db sid with
  | none => rw [hs] at hok; simp at hok
  | some s =>
    rw [hs] at hok
    simp only at hok
    cases hev : findEvent db s.eventId with
    | none => rw [hev] at hok; simp at hok
    | some event =>
      rw [hev] at hok
      simp only at hok
      by_cases hterm : s.status = SignupStatus.CANCELLED ∨
          s.status = SignupStatus.DECLINED
      · rw [if_pos hterm] at hok
        simp at hok
      · rw [if_neg hterm] at hok
        cases hcapE : event.capacity with
        | some cap =>
          rw [hcapE] at hok
          simp only at hok
          by_cases hge : countConsuming db s.eventId ≥ cap
          · rw [if_pos hge] at hok
            by_cases hwl : event.allowWaitlist = true
            · rw [if_pos hwl] at hok
              have hdb : db1 = updateSignup db sid (fun t =>
                  { t with
                    status := SignupStatus.WAITLISTED
                    statusNote :=
                      some "Auto-moved to waitlist (capacity reached)." }) :=
                (congrArg Prod.snd (Except.ok.inj hok)).symm
              refine ⟨?_, ?_⟩
              · rw [hdb]
                exact WF_updateSignup ⟨hne, hn, hb⟩ _ _ (fun t => rfl)
              · rw [hdb]
                intro e2 he2 cap2 hecap2
                have hex1 := countConsuming_updateSignup hn hs (fun t =>
                  { t with
                    status := SignupStatus.WAITLISTED
                    statusNote :=
                      some "Auto-moved to waitlist (capacity reached)." })
                  e2.id
                have hcf : consumesFor e2.id ({ s with
                    status := SignupStatus.WAITLISTED
                    statusNote :=
                      some "Auto-moved to waitlist (capacity reached)." } :
                    EventSignup) = false := by
                  simp [consumesFor, isConsuming]
                rw [hcf] at hex1
                simp only [Bool.false_eq_true, if_false, Nat.add_zero] at hex1
                have := hcap e2 he2 cap2 hecap2
                omega
            · rw [if_neg hwl] at hok
              simp at hok
          · rw [if_neg hge] at hok
            have hdb : db1 = updateSignup db sid (fun t =>
                { t with
                  status := SignupStatus.APPROVED
                  approvedById := some aid
                  approvedAt := some now
                  statusNote := none }) :=
              (congrArg Prod.snd (Except.ok.inj hok)).symm
            refine ⟨?_, ?_⟩
            · rw [hdb]
              exact WF_updateSignup ⟨hne, hn, hb⟩ _ _ (fun t => rfl)
            · rw [hdb]
              intro e2 he2 cap2 hecap2
              have hex1 := countConsuming_updateSignup hn hs (fun t =>
                { t with
                  status := SignupStatus.APPROVED
                  approvedById := some aid
                  approvedAt := some now
                  statusNote := none }) e2.id
              by_cases he2id : e2.id = s.eventId
              · have hevE2 : findEvent db e2.id = some e2 :=
                  findEvent_of_mem hne he2
                rw [he2id, hev] at hevE2
                have hee : e2 = event := (Option.some.inj hevE2).symm
                have hcc : cap = cap2 := by
                  rw [hee, hcapE] at hecap2
                  exact Option.some.inj hecap2
                have hcf : consumesFor e2.id ({ s with
                    status := SignupStatus.APPROVED
                    approvedById := some aid
                    approvedAt := some now
                    statusNote := none } : EventSignup) = true := by
                  simp [consumesFor, isConsuming, he2id]
                rw [hcf] at hex1
                simp only [if_true] at hex1
                rw [he2id] at hex1 ⊢
                omega
              · have hne2 : ¬ s.eventId = e2.id := fun hh => he2id hh.symm
                have hcs : consumesFor e2.id s = false := by
                  simp [consumesFor, hne2]
                have hcf : consumesFor e2.id ({ s with
                    status := SignupStatus.APPROVED
                    approvedById := some aid
                    approvedAt := some now
                    statusNote := none } : EventSignup) = false := by
                  simp [consumesFor, hne2]
                rw [hcs, hcf] at hex1
                simp only [Bool.false_eq_true, if_false, Nat.add_zero] at hex1
                rw [hex1]
                exact hcap e2 he2 cap2 hecap2
        | none =>
          rw [hcapE] at hok
          simp only at hok
          have hdb : db1 = updateSignup db sid (fun t =>
              { t with
                status := SignupStatus.APPROVED
                approvedById := some aid
                approvedAt := some now
                statusNote := none }) :=
            (congrArg Prod.snd (Except.ok.inj hok)).symm
          refine ⟨?_, ?_⟩
          · rw [hdb]
            exact WF_updateSignup ⟨hne, hn, hb⟩ _ _ (fun t => rfl)
          · rw [hdb]
            intro e2 he2 cap2 hecap2
            by_cases he2id : e2.id = s.eventId
            · have hevE2 : findEvent db e2.id = some e2 :=
                findEvent_of_mem hne he2
              rw [he2id, hev] at hevE2
              have hee : e2 = event := (Option.some.inj hevE2).symm
              rw [hee, hcapE] at hecap2
              cases hecap2
            · have hex1 := countConsuming_updateSignup hn hs (fun t =>
                { t with
                  status := SignupStatus.APPROVED
                  approvedById := some aid
                  approvedAt := some now
                  statusNote := none }) e2.id
              have hne2 : ¬ s.eventId = e2.id := fun hh => he2id hh.symm
              have hcs : consumesFor e2.id s = false := by
                simp [consumesFor, hne2]
              have hcf : consumesFor e2.id ({ s with
                  status := SignupStatus.APPROVED
                  approvedById := some aid
                  approvedAt := some now
                  statusNote := none } : EventSignup) = false := by
                simp [consumesFor, hne2]
              rw [hcs, hcf] at hex1
              simp only [Bool.false_eq_true, if_false, Nat.add_zero] at hex1
              rw [hex1]
              exact hcap e2 he2 cap2 hecap2

/-- A successful check-in keeps the store well-formed and within
capacity. -/
theorem checkInSignup_preserves {now : Int} {sid : Nat} {db : DB}
    {r : EventSignup} {db1 : DB} (hwf : WF db) (hcap : CapOk db)
    (hok : checkInSignup now sid db = .ok (r, db1)) :
    WF db1 ∧ CapOk db1 := by
  obtain ⟨hne, hn, hb⟩ := hwf
  unfold checkInSignup at hok
  cases hs : findSignupById db sid with
  | none => rw [hs] at hok; simp at hok
  | some s =>
    rw [hs] at hok
    simp only at hok
    by_cases h1 : s.status ≠ SignupStatus.APPROVED ∧
        s.status ≠ SignupStatus.CHECKED_IN
    · rw [if_pos h1] at hok
      simp at hok
    · rw [if_neg h1] at hok
      by_cases h2 : s.status = SignupStatus.CHECKED_IN
      · rw [if_pos h2] at hok
        have hdb : db1 = db := (congrArg Prod.snd (Except.ok.inj hok)).symm
        rw [hdb]
        exact ⟨⟨hne, hn, hb⟩, hcap⟩
      · rw [if_neg h2] at hok
        have hap : s.status = SignupStatus.APPROVED := by
          rcases not_and_or.mp h1 with h | h
          · exact not_not.mp h
          · exact absurd (not_not.mp h) h2
        have hdb : db1 = updateSignup db sid (fun t =>
            { t with
              status := SignupStatus.CHECKED_IN
              checkedInAt := some now }) :=
          (congrArg Prod.snd (Except.ok.inj hok)).symm
        refine ⟨?_, ?_⟩
        · rw [hdb]
          exact WF_updateSignup ⟨hne, hn, hb⟩ _ _ (fun t => rfl)
        · rw [hdb]
          intro e2 he2 cap2 hecap2
          have hex1 := countConsuming_updateSignup hn hs (fun t =>
            { t with
              status := SignupStatus.CHECKED_IN
              checkedInAt := some now }) e2.id
          have heq : consumesFor e2.id ({ s with
              status := SignupStatus.CHECKED_IN
              checkedInAt := some now } : EventSignup) =
              consumesFor e2.id s := by
            simp [consumesFor, isConsuming, hap]
          rw [heq] at hex1
          have := hcap e2 he2 cap2 hecap2
          omega

/-- A successful decline keeps the store well-formed and within
capacity. -/
theorem declineSignup_preserves {now : Int} {sid : Nat}
    {note : Option String} {db : DB} {r : EventSignup} {db1 : DB}
    (hwf : WF db) (hcap : CapOk db)
    (hok : declineSignup now sid note db = .ok (r, db1)) :
    WF db1 ∧ CapOk db1 := by
  obtain ⟨hne, hn, hb⟩ := hwf
  unfold declineSignup at hok
  cases hs : findSignupById db sid with
  | none => rw [hs] at hok; simp at hok
  | some s =>
    rw [hs] at hok
    simp only at hok
    have hdb : db1 = promoteWaitlist now s.eventId (updateSignup db sid
        (fun t =>
          { t with
            status := SignupStatus.DECLINED
            statusNote := note
            cancelledAt := some now })) :=
      (congrArg Prod.snd (Except.ok.inj hok)).symm
    have hwf1 : WF (updateSignup db sid (fun t =>
        { t with
          status := SignupStatus.DECLINED
          statusNote := note
          cancelledAt := some now })) :=
      WF_updateSignup ⟨hne, hn, hb⟩ _ _ (fun t => rfl)
    have hcap1 : CapOk (updateSignup db sid (fun t =>
        { t with
          status := SignupStatus.DECLINED
          statusNote := note
          cancelledAt := some now })) := by
      intro e2 he2 cap2 hecap2
      have hex1 := countConsuming_updateSignup hn hs (fun t =>
        { t with
          status := SignupStatus.DECLINED
          statusNote := note
          cancelledAt := some now }) e2.id
      have hcf : consumesFor e2.id ({ s with
          status := SignupStatus.DECLINED
          statusNote := note
          cancelledAt := some now } : EventSignup) = false := by
        simp [consumesFor, isConsuming]
      rw [hcf] at hex1
      simp only [Bool.false_eq_true, if_false, Nat.add_zero] at hex1
      have := hcap e2 he2 cap2 hecap2
      omega
    rw [hdb]
    exact ⟨WF_promoteWaitlist _ _ hwf1,
      promoteWaitlist_capOk _ _ _ hwf1.1 hwf1.2.1 hcap1⟩

/-- A successful cancel keeps the store well-formed and within
capacity. -/
theorem cancelSignup_preserves {now : Int} {sid uid : Nat} {db : DB}
    {db1 : DB} (hwf : WF db) (hcap : CapOk db)
    (hok : cancelSignup now sid uid db = .ok db1) :
    WF db1 ∧ CapOk db1 := by
  obtain ⟨hne, hn, hb⟩ := hwf
  unfold cancelSignup at hok
  cases hs : findSignupById db sid with
  | none => rw [hs] at hok; simp at hok
  | some s =>
    rw [hs] at hok
    simp only at hok
    cases hu : findUser db uid with
    | none => rw [hu] at hok; simp at hok
    | some u =>
      rw [hu] at hok
      simp only at hok
      by_cases hcan : (!(decide (u.role = Role.STAFF) ||
          decide (s.userId = uid) || decide (s.signedUpById = some uid) ||
          (decide (u.role = Role.CAREGIVER) && isLinked db uid s.userId)))
          = true
      · rw [if_pos hcan] at hok
        simp at hok
      · rw [if_neg hcan] at hok
        have hdb : db1 = promoteWaitlist now s.eventId (updateSignup db sid
            (fun t =>
              { t with
                status := SignupStatus.CANCELLED
                cancelledAt := some now })) :=
          (Except.ok.inj hok).symm
        have hwf1 : WF (updateSignup db sid (fun t =>
            { t with
              status := SignupStatus.CANCELLED
              cancelledAt := some now })) :=
          WF_updateSignup ⟨hne, hn, hb⟩ _ _ (fun t => rfl)
        have hcap1 : CapOk (updateSignup db sid (fun t =>
            { t with
              status := SignupStatus.CANCELLED
              cancelledAt := some now })) := by
          intro e2 he2 cap2 hecap2
          have hex1 := countConsuming_updateSignup hn hs (fun t =>
            { t with
              status := SignupStatus.CANCELLED
              cancelledAt := some now }) e2.id
          have hcf : consumesFor e2.id ({ s with
              status := SignupStatus.CANCELLED
              cancelledAt := some now } : EventSignup) = false := by
            simp [consumesFor, isConsuming]
          rw [hcf] at hex1
          simp only [Bool.false_eq_true, if_false, Nat.add_zero] at hex1
          have := hcap e2 he2 cap2 hecap2
          omega
        rw [hdb]
        exact ⟨WF_promoteWaitlist _ _ hwf1,
          promoteWaitlist_capOk _ _ _ hwf1.1 hwf1.2.1 hcap1⟩

end Signup

namespace Signup

/-- Every single request keeps the store well-formed and within
capacity. -/
theorem runAction_preserves (a : Action) (db : DB)
    (hwf : WF db) (hcap : CapOk db) :
    WF (runAction a db) ∧ CapOk (runAction a db) := by
  cases a with
  | create now inp =>
    cases hok : createSignup now inp db with
    | ok v =>
      obtain ⟨r, db1⟩ := v
      have hr : runAction (.create now inp) db = db1 := by
        simp [runAction, hok]
      rw [hr]
      exact createSignup_preserves hwf hcap hok
    | error e =>
      have hr : runAction (.create now inp) db = db := by
        simp [runAction, hok]
      rw [hr]
      exact ⟨hwf, hcap⟩
  | approve now sid aid =>
    cases hok : approveSignup now sid aid db with
    | ok v =>
      obtain ⟨r, db1⟩ := v
      have hr : runAction (.approve now sid aid) db = db1 := by
        simp [runAction, hok]
      rw [hr]
      exact approveSignup_preserves hwf hcap hok
    | error e =>
      have hr : runAction (.approve now sid aid) db = db := by
        simp [runAction, hok]
      rw [hr]
      exact ⟨hwf, hcap⟩
  | decline now sid note =>
    cases hok : declineSignup now sid note db with
    | ok v =>
      obtain ⟨r, db1⟩ := v
      have hr : runAction (.decline now sid note) db = db1 := by
        simp [runAction, hok]
      rw [hr]
      exact declineSignup_preserves hwf hcap hok
    | error e =>
      have hr : runAction (.decline now sid note) db = db := by
        simp [runAction, hok]
      rw [hr]
      exact ⟨hwf, hcap⟩
  | cancel now sid uid =>
    cases hok : cancelSignup now sid uid db with
    | ok db1 =>
      have hr : runAction (.cancel now sid uid) db = db1 := by
        simp [runAction, hok]
      rw [hr]
      exact cancelSignup_preserves hwf hcap hok
    | error e =>
      have hr : runAction (.cancel now sid uid) db = db := by
        simp [runAction, hok]
      rw [hr]
      exact ⟨hwf, hcap⟩
  | checkIn now sid =>
    cases hok : checkInSignup now sid db with
    | ok v =>
      obtain ⟨r, db1⟩ := v
      have hr : runAction (.checkIn now sid) db = db1 := by
        simp [runAction, hok]
      rw [hr]
      exact checkInSignup_preserves hwf hcap hok
    | error e =>
      have hr : runAction (.checkIn now sid) db = db := by
        simp [runAction, hok]
      rw [hr]
      exact ⟨hwf, hcap⟩
  | promote now eid =>
    exact ⟨WF_promoteWaitlist now eid hwf,
      promoteWaitlist_capOk now eid db hwf.1 hwf.2.1 hcap⟩

/-- Sequential executions keep the store well-formed and within
capacity. -/
theorem runAll_preserves (acts : List Action) (db : DB)
    (hwf : WF db) (hcap : CapOk db) :
    WF (runAll acts db) ∧ CapOk (runAll acts db) := by
  induction acts generalizing db with
  | nil => exact ⟨hwf, hcap⟩
  | cons a t ih =>
    have h1 := runAction_preserves a db hwf hcap
    exact ih (runAction a db) h1.1 h1.2

/-- C4: for every event with a finite capacity the consuming count never
exceeds the capacity: the invariant holds in the initial state (no
signup rows) and after every sequential execution of create, approve,
decline, cancel, check-in and waitlist-promotion requests. -/
theorem capacity_invariant (events : List Event) (users : List UserRec)
    (links : List (Nat × Nat)) (acts : List Action)
    (hne : (events.map Event.id).Nodup) :
    CapOk (initDB events users links) ∧
    CapOk (runAll acts (initDB events users links)) := by
  have hwf : WF (initDB events users links) := by
    refine ⟨hne, List.nodup_nil, ?_⟩
    intro s hs
    cases hs
  have hcap : CapOk (initDB events users links) := by
    intro e he cap hecap
    show List.countP _ [] ≤ cap
    simp
  exact ⟨hcap, (runAll_preserves acts _ hwf hcap).2⟩

/-- Witness for C4: a finite-capacity event stays within capacity across
a concrete execution that fills the event, attempts an overflow, cancels
and promotes. -/
theorem capacity_invariant_witness :
    ((([{ id := 5, endTime := 100, capacity := some 1,
          requiresApproval := false, allowWaitlist := true,
          createdById := 0 }] : List Event).map Event.id).Nodup) ∧
    CapOk (runAll
      [ .create 10 ⟨1, 5, none⟩,
        .create 11 ⟨2, 5, none⟩,
        .cancel 12 0 1,
        .checkIn 13 1,
        .promote 14 5 ]
      (initDB
        [{ id := 5, endTime := 100, capacity := some 1,
           requiresApproval := false, allowWaitlist := true,
           createdById := 0 }]
        [⟨1, .STUDENT⟩, ⟨2, .STUDENT⟩] [])) := by
  constructor
  · decide
  · exact (capacity_invariant
      [{ id := 5, endTime := 100, capacity := some 1,
         requiresApproval := false, allowWaitlist := true,
         createdById := 0 }]
      [⟨1, .STUDENT⟩, ⟨2, .STUDENT⟩] []
      [ .create 10 ⟨1, 5, none⟩,
        .create 11 ⟨2, 5, none⟩,
        .cancel 12 0 1,
        .checkIn 13 1,
        .promote 14 5 ]
      (by decide)).2

end Signup
